import Mathlib

/-!
# Verification of the tumblelog static blog generator

A shallow embedding of `tumblelog.py`, a static blog generator that turns a
delimiter-separated log of dated entries into HTML pages and a JSON feed,
together with proofs about the embedded definitions.

Conventions of the embedding:
* Python strings are Lean `String`; character-level work happens on `String.data`.
* Python exceptions are `Except TumblelogError`; an uncaught exception is an
  `.error` value that propagates through the pipeline by monadic bind.
* External collaborators (the CommonMark renderer, `strftime`, `urljoin`) are
  passed in as function parameters, mirroring the design's "external
  collaborator" boundary; everything else is translated from the source.
-/

namespace Tumblelog

/-- Errors raised by the program.  `noEntries` is `NoEntriesError`,
`noDateSpecified` is `NoDateSpecified`; `nameError` models the Python
`NameError` raised by the misspelled `min-year` variable in `create_page`
(and by the variables read before assignment when a day has no entries);
`valueError` models the `ValueError` raised by `strptime` on invalid dates
(and by tuple unpacking of a malformed split); `indexError` models the
`IndexError` of indexing into an empty sequence. -/
inductive TumblelogError
  | noEntries
  | noDateSpecified
  | nameError
  | valueError
  | indexError
  | reError
deriving DecidableEq

/-! ## String primitives

Python's string operations used by the source, re-implemented on `List Char`
so that proofs and concrete evaluation go through the kernel. -/

/-- Characters removed by Python's `str.strip()` (ASCII whitespace). -/
def isPySpace (c : Char) : Bool :=
  c = ' ' ∨ c = '\t' ∨ c = '\n' ∨ c = '\r' ∨ c = '\x0b' ∨ c = '\x0c'

/-- Python `str.strip()`: remove leading and trailing whitespace. -/
def pyStrip (s : String) : String :=
  ⟨((s.data.dropWhile isPySpace).reverse.dropWhile isPySpace).reverse⟩

/-- Lexicographic `≤` on character lists by code point: Python's string
comparison used by `sorted(..., key=itemgetter('date'), reverse=True)`. -/
def lexLe : List Char → List Char → Bool
  | [], _ => true
  | _ :: _, [] => false
  | a :: as, b :: bs => if a < b then true else if a = b then lexLe as bs else false

/-- Python `s <= t` for strings (code-point lexicographic order). -/
def strLe (s t : String) : Bool := lexLe s.data t.data

/-- Map a fallible function over a list, stopping at the first error: a
Python `for` loop of calls that may raise. -/
def exMapM (f : α → Except TumblelogError β) : List α → Except TumblelogError (List β)
  | [] => .ok []
  | a :: rest =>
    match f a with
    | .error e => .error e
    | .ok b => (exMapM f rest).map (fun bs => b :: bs)

/-- Python `text.split('%\n')`, specialised to the separator used by
`read_tumblelog_entries`: returns the first chunk and the list of remaining
chunks, splitting at each (leftmost, non-overlapping) occurrence of the
two-character sequence `%` newline. -/
def splitPNL : List Char → List Char × List (List Char)
  | [] => ([], [])
  | '%' :: '\n' :: cs => let r := splitPNL cs; ([], r.1 :: r.2)
  | c :: cs => let r := splitPNL cs; (c :: r.1, r.2)

/-- All chunks produced by `text.split('%\n')`, in order. -/
def readChunks (text : String) : List String :=
  let r := splitPNL text.data
  (r.1 :: r.2).map (fun l => String.mk l)

/-- `read_tumblelog_entries`: split the input on `'%\n'`, drop falsy (empty)
chunks, and raise `NoEntriesError` if nothing remains. -/
def readTumblelogEntries (text : String) : Except TumblelogError (List String) :=
  let entries := (readChunks text).filter (fun item => item ≠ "")
  if entries = [] then .error .noEntries else .ok entries

/-! ## The chunk pattern of `collect_days`

The source matches every chunk against the anchored regex
`(\d{4}-\d{2}-\d{2})(.*?)\n(.*)` with `re.DOTALL`: group 1 is a ten-character
date, the lazy group 2 is the remainder of the first line (up to the first
newline at or after position 10), group 3 is everything after that newline.
(Python's `\d` also accepts non-ASCII decimal digits; the embedding uses ASCII
digits, the only ones that `strptime` round-trips.) -/

/-- Split a character list at its first newline: `some (before, after)`,
or `none` when no newline occurs (then the regex above cannot match). -/
def splitFirstNL : List Char → Option (List Char × List Char)
  | [] => none
  | '\n' :: cs => some ([], cs)
  | c :: cs => (splitFirstNL cs).map (fun r => (c :: r.1, r.2))

/-- Whether a chunk opens with the ten-character `YYYY-MM-DD` shape required
by the `collect_days` pattern (the `\d{4}-\d{2}-\d{2}` part). -/
def hasLeadingDateShape : List Char → Bool
  | y1 :: y2 :: y3 :: y4 :: '-' :: m1 :: m2 :: '-' :: d1 :: d2 :: _ =>
    if y1.isDigit ∧ y2.isDigit ∧ y3.isDigit ∧ y4.isDigit ∧
       m1.isDigit ∧ m2.isDigit ∧ d1.isDigit ∧ d2.isDigit then true else false
  | _ => false

/-- The anchored match of `(\d{4}-\d{2}-\d{2})(.*?)\n(.*)` against a chunk:
`some (date, restOfLine, body)` on success, which requires both the leading
date shape and a newline somewhere after it. -/
def matchDatePattern (chunk : List Char) : Option (List Char × List Char × List Char) :=
  if hasLeadingDateShape chunk then
    match chunk with
    | y1 :: y2 :: y3 :: y4 :: '-' :: m1 :: m2 :: '-' :: d1 :: d2 :: rest =>
      match splitFirstNL rest with
      | some r => some ([y1, y2, y3, y4, '-', m1, m2, '-', d1, d2], r.1, r.2)
      | none => none
    | _ => none
  else none

/-- A `Day` record as built by `collect_days`:
`{'date': ..., 'title': ..., 'entries': [...]}`. -/
structure Day where
  date : String
  title : String
  entries : List String
deriving DecidableEq

/-- `days[-1]['entries'].append(e)`: append an entry body to the last day.
(The source only reaches this with a non-empty day list.) -/
def appendToLast : List Day → String → List Day
  | [], _ => []
  | [d], e => [{ d with entries := d.entries ++ [e] }]
  | d :: d2 :: ds, e => d :: appendToLast (d2 :: ds) e

/-- The loop of `collect_days` over the chunks: a matching chunk opens a new
`Day` (title stripped) whose first entry is match group 3; a non-matching chunk
is appended whole to the last open day, or raises `NoDateSpecified` when no
date has been seen yet. -/
def collectLoop : Option String → List Day → List String → Except TumblelogError (List Day)
  | _, days, [] => .ok days
  | date, days, entry :: rest =>
    match matchDatePattern entry.data with
    | some r =>
      let dateStr := String.mk r.1
      collectLoop (some dateStr)
        (appendToLast (days ++ [⟨dateStr, pyStrip (String.mk r.2.1), []⟩]) (String.mk r.2.2))
        rest
    | none =>
      match date with
      | none => .error .noDateSpecified
      | some _ => collectLoop date (appendToLast days entry) rest

/-- The descending comparison used by
`sorted(days, key=itemgetter('date'), reverse=True)`. -/
def dayDescLe (a b : Day) : Bool := strLe b.date a.date

/-- Insert a day into a descending-sorted list, after any day with an equal
date: one step of a stable descending sort. -/
def insertDayDesc (d : Day) : List Day → List Day
  | [] => [d]
  | e :: es => if strLe d.date e.date then e :: insertDayDesc d es else d :: e :: es

/-- `sorted(days, key=itemgetter('date'), reverse=True)`: a stable descending
sort by date string.  (Stable insertion sort; extensionally equal to Python's
stable sort, which is all the caller can observe.) -/
def pySortDesc (days : List Day) : List Day :=
  days.foldl (fun acc d => insertDayDesc d acc) []

/-- `collect_days`: build days from the chunks, then stable-sort them in
descending order of date string. -/
def collectDays (entries : List String) : Except TumblelogError (List Day) :=
  (collectLoop none [] entries).map pySortDesc

/-! ## Calendar

`parse_date` is `datetime.strptime(str, '%Y-%m-%d')` (which validates the
date), and `isocalendar()` yields the ISO-8601 week-year and week number.
Both are embedded as executable arithmetic on proleptic-Gregorian dates. -/

/-- Gregorian leap year. -/
def isLeap (y : Nat) : Bool := (y % 4 = 0 ∧ y % 100 ≠ 0) ∨ y % 400 = 0

/-- Length of month `m` (1-12) in year `y`. -/
def daysInMonth (y m : Nat) : Nat :=
  if m = 2 then (if isLeap y then 29 else 28)
  else if m = 4 ∨ m = 6 ∨ m = 9 ∨ m = 11 then 30 else 31

/-- Days in year `y` before month `m`. -/
def daysBeforeMonth (y m : Nat) : Nat :=
  (List.range (m - 1)).foldl (fun acc i => acc + daysInMonth y (i + 1)) 0

/-- One-based ordinal of the date within its year. -/
def dayOfYear (y m d : Nat) : Nat := daysBeforeMonth y m + d

/-- Days before January 1 of year `y` in the proleptic Gregorian calendar
(day 1 = January 1 of year 1). -/
def daysBeforeYear (y : Nat) : Nat :=
  (y - 1) * 365 + (y - 1) / 4 - (y - 1) / 100 + (y - 1) / 400

/-- Absolute day number (January 1 of year 1 is day 1). -/
def absDay (y m d : Nat) : Nat := daysBeforeYear y + dayOfYear y m d

/-- ISO weekday, Monday = 1 .. Sunday = 7 (January 1 of year 1 is a Monday). -/
def isoWeekday (y m d : Nat) : Nat := (absDay y m d - 1) % 7 + 1

/-- Weekday-of-December-31 helper for the ISO 53-week rule. -/
def pWeek (y : Nat) : Nat := (y + y / 4 - y / 100 + y / 400) % 7

/-- Number of ISO weeks in ISO year `y` (52 or 53). -/
def isoWeeksInYear (y : Nat) : Nat :=
  if pWeek y = 4 ∨ pWeek (y - 1) = 3 then 53 else 52

/-- `datetime.isocalendar()[0:2]`: the (ISO week-year, ISO week) of a date. -/
def isoCalendar (y m d : Nat) : Nat × Nat :=
  let doy := dayOfYear y m d
  let wd := isoWeekday y m d
  let w := (doy + 10 - wd) / 7
  if w = 0 then (y - 1, isoWeeksInYear (y - 1))
  else if w = 53 ∧ isoWeeksInYear y = 52 then (y + 1, 1)
  else (y, w)

/-- Numeric value of a digit character. -/
def digitVal (c : Char) : Nat := c.toNat - '0'.toNat

/-- Decimal value of a digit list. -/
def decimalVal (l : List Char) : Nat := l.foldl (fun acc c => acc * 10 + digitVal c) 0

/-- `parse_date`: `strptime(str, '%Y-%m-%d')`, validating the date; an invalid
string raises `ValueError` (which the program never catches). -/
def parseDate (s : String) : Except TumblelogError (Nat × Nat × Nat) :=
  match s.data with
  | [y1, y2, y3, y4, '-', m1, m2, '-', d1, d2] =>
    if y1.isDigit ∧ y2.isDigit ∧ y3.isDigit ∧ y4.isDigit ∧
       m1.isDigit ∧ m2.isDigit ∧ d1.isDigit ∧ d2.isDigit then
      let y := decimalVal [y1, y2, y3, y4]
      let m := decimalVal [m1, m2]
      let d := decimalVal [d1, d2]
      if 1 ≤ y ∧ 1 ≤ m ∧ m ≤ 12 ∧ 1 ≤ d ∧ d ≤ daysInMonth y m then
        .ok (y, m, d)
      else .error .valueError
    else .error .valueError
  | _ => .error .valueError

/-- `f'{n:0w\x7bd\x7d'`-style zero padding to a minimum width. -/
def padZero (width : Nat) (n : Nat) : String :=
  let s := toString n
  String.mk (List.replicate (width - s.length) '0') ++ s

/-- `join_year_week`: `f'{year:04d}-{week:02d}'`. -/
def joinYearWeek (year week : Nat) : String := padZero 4 year ++ "-" ++ padZero 2 week

/-- `get_year_week`: the `"YYYY-WW"` key of a date's ISO week. -/
def getYearWeek (date : String) : Except TumblelogError String :=
  (parseDate date).map (fun p => joinYearWeek (isoCalendar p.1 p.2.1 p.2.2).1
    (isoCalendar p.1 p.2.1 p.2.2).2)

/-! ## Archive

`create_archive` builds a `defaultdict(deque)` keyed by the zero-padded year,
holding `appendleft`-inserted zero-padded week numbers, deduplicated by the
`"YYYY-WW"` key.  A Python dict preserves key insertion order, so the mapping
is an association list with new keys appended at the end. -/

/-- The archive mapping: zero-padded year string to its week-number strings
in deque order (left to right). -/
abbrev Archive := List (String × List String)

/-- `archive[yStr].appendleft(wStr)` on a `defaultdict(deque)`: prepend to the
year's deque, creating the key (at the end, in insertion order) if absent. -/
def insertWeek (yStr wStr : String) : Archive → Archive
  | [] => [(yStr, [wStr])]
  | (y, ws) :: rest =>
    if y = yStr then (y, wStr :: ws) :: rest else (y, ws) :: insertWeek yStr wStr rest

/-- The loop of `create_archive` over the days, carrying the `seen` keys. -/
def archiveLoop (seen : List String) (archive : Archive) :
    List Day → Except TumblelogError Archive
  | [] => .ok archive
  | day :: rest =>
    match parseDate day.date with
    | .error e => .error e
    | .ok p =>
      let yw := isoCalendar p.1 p.2.1 p.2.2
      let key := joinYearWeek yw.1 yw.2
      if key ∈ seen then archiveLoop seen archive rest
      else archiveLoop (key :: seen)
        (insertWeek (padZero 4 yw.1) (padZero 2 yw.2) archive) rest

/-- `create_archive`. -/
def createArchive (days : List Day) : Except TumblelogError Archive :=
  archiveLoop [] [] days

/-! ## HTML fragments -/

/-- `html.escape` applied to one character (with `quote=True`, the default). -/
def escapeChar (c : Char) : String :=
  if c = '&' then "&amp;"
  else if c = '<' then "&lt;"
  else if c = '>' then "&gt;"
  else if c = '"' then "&quot;"
  else if c = '\'' then "&#x27;"
  else String.mk [c]

/-- `html.escape`: HTML-escape a string. -/
def escape (s : String) : String := String.join (s.data.map escapeChar)

/-- Recursion core of `replaceAll`, structurally recursive on a fuel bound
(call sites always pass `fuel = s.length`, and the skip after a match only
shrinks the text), so that the kernel can evaluate template substitution. -/
def replaceAllGo (pat rep : List Char) : Nat → List Char → List Char
  | _, [] => []
  | 0, _ :: _ => []
  | fuel + 1, c :: cs =>
    if pat ≠ [] ∧ pat.isPrefixOf (c :: cs) then
      rep ++ replaceAllGo pat rep fuel ((c :: cs).drop pat.length)
    else c :: replaceAllGo pat rep fuel cs

/-- Replace every (leftmost, non-overlapping) occurrence of `pat` by `rep`:
the matching-and-insertion step of `re.sub` for a literal pattern.  `rep` is
inserted verbatim, so for a string replacement the caller must first process
the replacement template (`expandTemplate` below); only a function (lambda)
replacement is inserted as-is by `re`. -/
def replaceAll (pat rep s : List Char) : List Char := replaceAllGo pat rep s.length s

/-- Replace only the first occurrence of `pat` by `rep`:
`re.sub(..., count=1)` with a function replacement (inserted verbatim). -/
def replaceFirst (pat rep : List Char) : List Char → List Char
  | [] => []
  | c :: cs =>
    if pat ≠ [] ∧ pat.isPrefixOf (c :: cs) then rep ++ (c :: cs).drop pat.length
    else c :: replaceFirst pat rep cs

/-- Octal digit test used by replacement-template escapes. -/
def isOctDigitCh (c : Char) : Bool := '0' ≤ c && c ≤ '7'

/-- The known letter escapes of `re` replacement templates
(`sre_parse.ESCAPES`). -/
def templateEscape : Char → Option Char
  | 'a' => some (Char.ofNat 0x07)
  | 'b' => some (Char.ofNat 0x08)
  | 'f' => some (Char.ofNat 0x0c)
  | 'n' => some (Char.ofNat 0x0a)
  | 'r' => some (Char.ofNat 0x0d)
  | 't' => some (Char.ofNat 0x09)
  | 'v' => some (Char.ofNat 0x0b)
  | '\\' => some '\\'
  | _ => none

/-- Recursion core of `expandTemplate`, on a fuel bound (call sites pass
`fuel = length`; every step consumes at least one character), so that the
kernel can evaluate it. -/
def expandTemplateGo : Nat → List Char → Except TumblelogError (List Char)
  | _, [] => .ok []
  | 0, _ :: _ => .error .reError
  | fuel + 1, c :: rest =>
    if c = '\\' then
      match rest with
      | [] => .error .reError
      | d :: rest2 =>
        if d = 'g' then .error .reError
        else if d = '0' then
          match rest2 with
          | [] => .ok [Char.ofNat 0]
          | d1 :: rest3 =>
            if isOctDigitCh d1 then
              match rest3 with
              | [] => .ok [Char.ofNat (digitVal d1)]
              | d2 :: rest4 =>
                if isOctDigitCh d2 then
                  (expandTemplateGo fuel rest4).map
                    (fun t => Char.ofNat (digitVal d1 * 8 + digitVal d2) :: t)
                else (expandTemplateGo fuel rest3).map
                  (fun t => Char.ofNat (digitVal d1) :: t)
            else (expandTemplateGo fuel rest2).map (fun t => Char.ofNat 0 :: t)
        else if d.isDigit then
          match rest2 with
          | [] => .error .reError
          | d2 :: rest3 =>
            if d2.isDigit then
              match rest3 with
              | [] => .error .reError
              | d3 :: rest4 =>
                if isOctDigitCh d && isOctDigitCh d2 && isOctDigitCh d3 then
                  (expandTemplateGo fuel rest4).map (fun t =>
                    Char.ofNat ((digitVal d * 64 + digitVal d2 * 8 + digitVal d3) % 256) :: t)
                else .error .reError
            else .error .reError
        else
          match templateEscape d with
          | some r => (expandTemplateGo fuel rest2).map (fun t => r :: t)
          | none =>
            if d.isAlpha then .error .reError
            else (expandTemplateGo fuel rest2).map (fun t => '\\' :: d :: t)
    else (expandTemplateGo fuel rest).map (fun t => c :: t)

/-- `re` replacement-template processing (`sre_parse.parse_template`) for the
group-free literal patterns used here: a trailing backslash or an escaped
`g` or ASCII letter with no meaning raises `re.error` (as does any group
reference `\1`…`\99`, since these patterns define no groups), known letter
escapes become control characters, `\0` plus up to two octal digits and
`\ooo` are octal escapes, and a backslash before any other character is
kept.  `re.sub` parses the template before scanning, so a bad escape raises
even when the pattern never matches. -/
def expandTemplate (l : List Char) : Except TumblelogError (List Char) :=
  expandTemplateGo l.length l

/-- `re.sub` with a string replacement: process the replacement template,
then substitute its expansion at every occurrence of the literal pattern. -/
def subStr (pat : List Char) (rep : String) (s : List Char) :
    Except TumblelogError (List Char) :=
  match expandTemplate rep.data with
  | .error e => .error e
  | .ok r => .ok (replaceAll pat r s)

/-- A sequence of `re.sub` string-replacement passes, aborting at the first
`re.error`. -/
def subStrPasses : List (List Char × String) → List Char → Except TumblelogError (List Char)
  | [], h => .ok h
  | (pat, rep) :: rest, h =>
    match subStr pat rep h with
    | .error e => .error e
    | .ok h2 => subStrPasses rest h2

/-- `year_week_label`: substitute the week for `%V`, then the year for `%Y`,
in the configured label format.  These are `re.sub` string replacements, but
every call site passes the zero-padded week and year digits, which contain
no backslash, so the replacement-template processing is the identity. -/
def yearWeekLabel (format year week : String) : String :=
  let s1 := String.mk (replaceAll ['%', 'V'] week.data format.data)
  String.mk (replaceAll ['%', 'Y'] year.data s1.data)

/-- Insert a string into a descending-sorted list (stable sort step). -/
def insertStrDesc (s : String) : List String → List String
  | [] => [s]
  | t :: ts => if strLe s t then t :: insertStrDesc s ts else s :: t :: ts

/-- `sorted(keys, reverse=True)`: stable descending sort of strings. -/
def sortStrDesc (l : List String) : List String :=
  l.foldl (fun acc s => insertStrDesc s acc) []

/-- `sorted(archive.keys(), reverse=True)`: the year iteration order of
`html_for_archive`. -/
def archiveDisplayYears (archive : Archive) : List String :=
  sortStrDesc (archive.map Prod.fst)

/-- One `<li>` item of the archive fragment: the non-link marker for the
current week, an anchor otherwise. -/
def htmlForWeekItem (currentYearWeek : Option String) (path labelFormat year week : String) :
    String :=
  let yearWeek := joinYearWeek (decimalVal year.data) (decimalVal week.data)
  if currentYearWeek = some yearWeek then
    "        <li class=\"tl-self\">" ++ week ++ "</li>\n"
  else
    let title := escape (yearWeekLabel labelFormat year week)
    let uri := path ++ "/" ++ year ++ "/week/" ++ week ++ ".html"
    "        <li>" ++ "<a href=\"" ++ uri ++ "\" title=\"" ++ title ++ "\">" ++
      week ++ "</a></li>\n"

/-- `html_for_archive`: years in descending order, each year's weeks in deque
order.  (`archive[year]` on the `defaultdict` returns an empty deque for a
missing key, hence the `getD []`.) -/
def htmlForArchive (archive : Archive) (currentYearWeek : Option String)
    (path labelFormat : String) : String :=
  "<nav>\n  <dl class=\"tl-archive\">\n" ++
  String.join ((archiveDisplayYears archive).map (fun year =>
    "    <dt>" ++ year ++ "</dt>\n    <dd>\n      <ul>\n" ++
    String.join (((archive.lookup year).getD []).map
      (htmlForWeekItem currentYearWeek path labelFormat year)) ++
    "      </ul>\n    </dd>\n")) ++
  "  </dl>\n</nav>\n"

/-- `date.split('-')` (also `split_year_week`): split a string at dashes. -/
def splitDashAux : List Char → List Char × List (List Char)
  | [] => ([], [])
  | '-' :: cs => let r := splitDashAux cs; ([], r.1 :: r.2)
  | c :: cs => let r := splitDashAux cs; (c :: r.1, r.2)

/-- `split_date` / `split_year_week`: `s.split('-')`. -/
def splitDash (s : String) : List String :=
  let r := splitDashAux s.data
  (r.1 :: r.2).map (fun l => String.mk l)

/-- `html_for_date`: the dated heading of a day, a time-marked anchor to the
day's archive path.  `strftime` is the external date formatter. -/
def htmlForDate (strftime : String → Nat × Nat × Nat → String)
    (date dateFormat path : String) : Except TumblelogError String :=
  match splitDash date with
  | [year, month, day] =>
    (parseDate date).map (fun p =>
      let uri := path ++ "/" ++ year ++ "/" ++ month ++ "/" ++ day ++ ".html"
      "<time class=\"tl-date\" datetime=\"" ++ date ++ "\"><a href=\"" ++ uri ++ "\">" ++
        strftime dateFormat p ++ "</a></time>\n")
  | _ => .error .valueError

/-- `html_for_entry`: the entry body through the external CommonMark
renderer, wrapped in an article element. -/
def htmlForEntry (render : String → String) (entry : String) : String :=
  "<article>\n" ++ render entry ++ "</article>\n"

/-- `label_and_title`: the page label is the formatted date; the page title
is `title - name` for a titled day, else `name - label`. -/
def labelAndTitle (strftime : String → Nat × Nat × Nat → String)
    (dateFormat name : String) (day : Day) : Except TumblelogError (String × String) :=
  (parseDate day.date).map (fun p =>
    let label := strftime dateFormat p
    let title :=
      if day.title ≠ "" then day.title ++ " - " ++ name else name ++ " - " ++ label
    (label, title))

/-- `html_link_for_day`: an anchor to the day's page; link text is the
escaped title, falling back to the escaped formatted date when empty. -/
def htmlLinkForDay (strftime : String → Nat × Nat × Nat → String)
    (dateFormat : String) (day : Day) : Except TumblelogError String :=
  match parseDate day.date with
  | .error e => .error e
  | .ok p =>
    let title := escape day.title
    let label := escape (strftime dateFormat p)
    let text := if title = "" then label else title
    match splitDash day.date with
    | [year, month, dayNumber] =>
      .ok ("<a href=\"" ++ "../../" ++ year ++ "/" ++ month ++ "/" ++ dayNumber ++
        ".html" ++ "\" title=\"" ++ label ++ "\">" ++ text ++ "</a>")
    | _ => .error .valueError

/-- `html_for_next_prev`: empty for a single-day site; otherwise a nav block
with a "next" part when `index` is truthy and a "prev" part when
`index < length - 1`. -/
def htmlForNextPrev (strftime : String → Nat × Nat × Nat → String)
    (dateFormat : String) (days : List Day) (index : Nat) :
    Except TumblelogError String :=
  let length := days.length
  if length = 1 then .ok ""
  else
    let nextE : Except TumblelogError String :=
      if index ≠ 0 then
        match days.get? (index - 1) with
        | some d => (htmlLinkForDay strftime dateFormat d).map (fun link =>
            "  <div class=\"next\">" ++ link ++
            "</div>" ++ "<div class=\"tl-right-arrow\">→</div>\n")
        | none => .error .indexError
      else .ok ""
    let prevE : Except TumblelogError String :=
      if index < length - 1 then
        match days.get? (index + 1) with
        | some d => (htmlLinkForDay strftime dateFormat d).map (fun link =>
            "  <div class=\"tl-left-arrow\">←</div>" ++ "<div class=\"prev\">" ++
            link ++ "</div>\n")
        | none => .error .indexError
      else .ok ""
    match nextE, prevE with
    | .ok n, .ok p => .ok ("<nav class=\"tl-next-prev\">\n" ++ n ++ p ++ "</nav>\n")
    | .error e, _ => .error e
    | _, .error e => .error e

/-! ## Page template substitution

The placeholder regexes `\[%\s*name\s*%\]` allow flexible interior
whitespace; the embedding uses the canonical single-space spelling.  The
`body` and `archive` patterns include the trailing newline, exactly as the
source regexes do.  `RE_BODY` is substituted with `count=1` through a lambda
(first occurrence only, inserted verbatim); every other substitution passes a
replacement string, which `re.sub` inserts verbatim as long as it contains no
backslash (the theorems below assume backslash-free values, which is what the
generated HTML provides). -/

def tokTitle : List Char := "[% title %]".data
def tokYearRange : List Char := "[% year-range %]".data
def tokLabel : List Char := "[% label %]".data
def tokCss : List Char := "[% css %]".data
def tokName : List Char := "[% name %]".data
def tokAuthor : List Char := "[% author %]".data
def tokVersion : List Char := "[% version %]".data
def tokFeedUrl : List Char := "[% feed-url %]".data
def tokBody : List Char := "[% body %]\n".data
def tokArchive : List Char := "[% archive %]\n".data

/-- `VERSION = '1.0.3'`. -/
def pyVERSION : String := "1.0.3"

/-- The resolved configuration shared by all composers. -/
structure Config where
  name : String
  author : String
  css : String
  blogUrl : String
  feedUrl : String
  dateFormat : String
  labelFormat : String
  days : Int
  template : String

/-- The stylesheet path of `create_page`: one `../` per `/` in the page
path, prepended to the configured css. -/
def cssFor (path cssCfg : String) : String :=
  String.join (List.replicate (path.data.countP (fun c => c = '/')) "../") ++ cssCfg

/-- The substitution chain of `create_page`, in source order: the eight
escaped scalar substitutions as `re.sub` string replacements (each
replacement template is processed, so a backslash in an escaped value is
interpreted and a bad escape raises `re.error`), then the body — a lambda
replacement with `count=1`, inserted verbatim at the first occurrence only —
then the archive, again a string replacement. -/
def createPageHtml (cfg : Config) (path title bodyHtml archiveHtml label yearRange : String) :
    Except TumblelogError String :=
  let css := cssFor path cfg.css
  match subStrPasses
      [(tokTitle, escape title), (tokYearRange, escape yearRange), (tokLabel, escape label),
       (tokCss, escape css), (tokName, escape cfg.name), (tokAuthor, escape cfg.author),
       (tokVersion, escape pyVERSION), (tokFeedUrl, escape cfg.feedUrl)] cfg.template.data with
  | .error e => .error e
  | .ok h =>
    match subStr tokArchive archiveHtml (replaceFirst tokBody bodyHtml.data h) with
    | .error e => .error e
    | .ok h2 => .ok (String.mk h2)

/-- The year-range computation opening `create_page`.  When the years differ
the source interpolates the undefined name `min-year`, so Python raises
`NameError` before producing any page. -/
def yearRangeOf (minYear maxYear : String) : Except TumblelogError String :=
  if minYear = maxYear then .ok minYear else .error .nameError

/-- `create_page`: compute the year range, substitute the template, and emit
the `(path, html)` pair handed to the file-system sink. -/
def createPage (cfg : Config) (path title bodyHtml archiveHtml label minYear maxYear : String) :
    Except TumblelogError (String × String) :=
  match yearRangeOf minYear maxYear with
  | .error e => .error e
  | .ok yearRange =>
    match createPageHtml cfg path title bodyHtml archiveHtml label yearRange with
    | .error e => .error e
    | .ok html => .ok (path, html)

/-! ## Home page, day and week pages, feed -/

/-- What one day contributes to the home page body: its dated heading
followed by its rendered entries. -/
def indexDayHtml (render : String → String) (strftime : String → Nat × Nat × Nat → String)
    (dateFormat : String) (day : Day) : Except TumblelogError String :=
  (htmlForDate strftime day.date dateFormat "archive").map
    (fun dateHtml => dateHtml ++ String.join (day.entries.map (htmlForEntry render)))

/-- The body loop of `create_index`: concatenate each day's contribution,
decrement `todo` after each day and stop when it hits zero
(`if not todo: break`). -/
def indexBodyLoop (render : String → String) (strftime : String → Nat × Nat × Nat → String)
    (dateFormat : String) : Int → List Day → Except TumblelogError String
  | _, [] => .ok ""
  | todo, day :: rest =>
    match indexDayHtml render strftime dateFormat day with
    | .error e => .error e
    | .ok dayHtml =>
      if todo - 1 = 0 then .ok dayHtml
      else (indexBodyLoop render strftime dateFormat (todo - 1) rest).map
        (fun restHtml => dayHtml ++ restHtml)

/-- `create_index`: home page body (limited by `config['days']`), full
archive fragment, label `home`, written to `index.html`. -/
def createIndex (render : String → String) (strftime : String → Nat × Nat × Nat → String)
    (cfg : Config) (days : List Day) (archive : Archive) (minYear maxYear : String) :
    Except TumblelogError (String × String) :=
  match indexBodyLoop render strftime cfg.dateFormat cfg.days days with
  | .error e => .error e
  | .ok bodyHtml =>
    let archiveHtml := htmlForArchive archive none "archive" cfg.labelFormat
    let label := "home"
    let title := cfg.name ++ " - " ++ label
    createPage cfg "index.html" title bodyHtml archiveHtml label minYear maxYear

/-- `create_week_page`: archive fragment with the current week highlighted,
label from the configured label format, page under `archive/<year>/week/`. -/
def createWeekPage (cfg : Config) (yearWeek bodyHtml : String) (archive : Archive)
    (minYear maxYear : String) : Except TumblelogError (String × String) :=
  let archiveHtml := htmlForArchive archive (some yearWeek) "../.." cfg.labelFormat
  match splitDash yearWeek with
  | [year, week] =>
    let label := yearWeekLabel cfg.labelFormat year week
    let title := cfg.name ++ " - " ++ label
    let path := "archive/" ++ year ++ "/week"
    createPage cfg (path ++ "/" ++ week ++ ".html") title bodyHtml archiveHtml label
      minYear maxYear
  | _ => .error .valueError

/-- The per-day body of `create_day_and_week_pages`: dated heading plus the
rendered entries. -/
def dayBodyHtml (render : String → String) (strftime : String → Nat × Nat × Nat → String)
    (dateFormat : String) (day : Day) : Except TumblelogError String :=
  (htmlForDate strftime day.date dateFormat "../..").map
    (fun dateHtml => dateHtml ++ String.join (day.entries.map (htmlForEntry render)))

/-- One day page of `create_day_and_week_pages`.  The source computes the
label, title, path pieces and next/prev block inside the per-entry loop, so a
day with no entries leaves them unassigned (`NameError` on the first day;
the embedding reports the error for any entry-less day, a state the pipeline
never produces — see the `collect_days` invariant theorems). -/
def dayPageFor (strftime : String → Nat × Nat × Nat → String) (cfg : Config)
    (days : List Day) (index : Nat) (day : Day) (dayBody dayArchiveHtml minYear maxYear : String) :
    Except TumblelogError (String × String) :=
  match day.entries with
  | [] => .error .nameError
  | _ :: _ =>
    match labelAndTitle strftime cfg.dateFormat cfg.name day with
    | .error e => .error e
    | .ok lt =>
      match htmlForNextPrev strftime cfg.dateFormat days index with
      | .error e => .error e
      | .ok nextPrevHtml =>
        match splitDash day.date with
        | [year, month, dayNumber] =>
          let path := "archive/" ++ year ++ "/" ++ month
          createPage cfg (path ++ "/" ++ dayNumber ++ ".html") lt.2
            (dayBody ++ nextPrevHtml) dayArchiveHtml lt.1 minYear maxYear
        | _ => .error .valueError

/-- The loop of `create_day_and_week_pages` over the sorted days: emits every
day page immediately, accumulates `week_body_html` while the day's year-week
equals the accumulator's, flushes `(current_year_week, week_body_html)` on a
week-boundary crossing, and flushes the final accumulated week after the
loop.  Returns the day pages and the flushed `(yearWeek, weekBody)` pairs in
order. -/
def dayWeekLoop (render : String → String) (strftime : String → Nat × Nat × Nat → String)
    (cfg : Config) (days : List Day) (dayArchiveHtml minYear maxYear : String) :
    Nat → String → String → List Day →
    Except TumblelogError (List (String × String) × List (String × String))
  | _, currentYW, weekBody, [] => .ok ([], [(currentYW, weekBody)])
  | index, currentYW, weekBody, day :: rest =>
    match dayBodyHtml render strftime cfg.dateFormat day with
    | .error e => .error e
    | .ok dayBody =>
      match dayPageFor strftime cfg days index day dayBody dayArchiveHtml minYear maxYear with
      | .error e => .error e
      | .ok page =>
        match getYearWeek day.date with
        | .error e => .error e
        | .ok yearWeek =>
          if yearWeek = currentYW then
            match dayWeekLoop render strftime cfg days dayArchiveHtml minYear maxYear
                (index + 1) currentYW (weekBody ++ dayBody) rest with
            | .error e => .error e
            | .ok r => .ok (page :: r.1, r.2)
          else
            match dayWeekLoop render strftime cfg days dayArchiveHtml minYear maxYear
                (index + 1) yearWeek dayBody rest with
            | .error e => .error e
            | .ok r => .ok (page :: r.1, (currentYW, weekBody) :: r.2)

/-- `create_day_and_week_pages`: seed the accumulator with the first day's
year-week (IndexError on an empty sequence), run the loop, and render one
week page per flushed week. -/
def createDayAndWeekPages (render : String → String)
    (strftime : String → Nat × Nat × Nat → String) (cfg : Config) (days : List Day)
    (archive : Archive) (minYear maxYear : String) :
    Except TumblelogError (List (String × String) × List (String × String)) :=
  match days with
  | [] => .error .indexError
  | d0 :: _ =>
    match getYearWeek d0.date with
    | .error e => .error e
    | .ok currentYW =>
      let dayArchiveHtml := htmlForArchive archive none "../.." cfg.labelFormat
      match dayWeekLoop render strftime cfg days dayArchiveHtml minYear maxYear
          0 currentYW "" days with
      | .error e => .error e
      | .ok r =>
        match exMapM (fun f => createWeekPage cfg f.1 f.2 archive minYear maxYear) r.2 with
        | .error e => .error e
        | .ok weekPages => .ok (r.1, weekPages)

/-- One item of the JSON feed. -/
structure FeedItem where
  id : String
  url : String
  title : String
  contentHtml : String
  datePublished : String
deriving DecidableEq

/-- The feed item built for one day by `create_json_feed`: canonical URL from
the calendar path, title falling back to the formatted date, rendered entry
bodies concatenated. -/
def feedItemFor (render : String → String) (strftime : String → Nat × Nat × Nat → String)
    (urljoin : String → String → String) (cfg : Config) (day : Day) :
    Except TumblelogError FeedItem :=
  let html := String.join (day.entries.map (htmlForEntry render))
  match splitDash day.date with
  | [year, month, dayNumber] =>
    let url := urljoin cfg.blogUrl
      ("archive/" ++ year ++ "/" ++ month ++ "/" ++ dayNumber ++ ".html")
    match (if day.title ≠ "" then .ok day.title
           else (parseDate day.date).map (strftime cfg.dateFormat) :
           Except TumblelogError String) with
    | .error e => .error e
    | .ok title => .ok ⟨url, url, title, html, day.date⟩
  | _ => .error .valueError

/-- The item loop of `create_json_feed`, with the same `todo` cutoff as the
home page. -/
def feedLoop (render : String → String) (strftime : String → Nat × Nat × Nat → String)
    (urljoin : String → String → String) (cfg : Config) :
    Int → List Day → Except TumblelogError (List FeedItem)
  | _, [] => .ok []
  | todo, day :: rest =>
    match feedItemFor render strftime urljoin cfg day with
    | .error e => .error e
    | .ok item =>
      if todo - 1 = 0 then .ok [item]
      else (feedLoop render strftime urljoin cfg (todo - 1) rest).map
        (fun items => item :: items)

/-- The feed document (serialization to JSON text is the external sink). -/
structure Feed where
  version : String
  title : String
  homePageUrl : String
  feedUrl : String
  authorName : String
  items : List FeedItem
deriving DecidableEq

/-- `create_json_feed`. -/
def createJsonFeed (render : String → String) (strftime : String → Nat × Nat × Nat → String)
    (urljoin : String → String → String) (cfg : Config) (days : List Day) :
    Except TumblelogError Feed :=
  (feedLoop render strftime urljoin cfg cfg.days days).map (fun items =>
    ⟨"https://jsonfeed.org/version/1", cfg.name, cfg.blogUrl, cfg.feedUrl,
      cfg.author, items⟩)

/-- Everything `create_blog` hands to the file-system sink. -/
structure Outputs where
  indexPage : String × String
  dayPages : List (String × String)
  weekPages : List (String × String)
  feed : Feed

/-- `create_blog`: read, collect, derive the year bounds from the first and
last sorted day, build the archive, then the home page, the day and week
pages, and the feed.  An error anywhere aborts the run with no outputs. -/
def createBlog (render : String → String) (strftime : String → Nat × Nat × Nat → String)
    (urljoin : String → String → String) (cfg : Config) (text : String) :
    Except TumblelogError Outputs :=
  match readTumblelogEntries text with
  | .error e => .error e
  | .ok entries =>
    match collectDays entries with
    | .error e => .error e
    | .ok days =>
      match days.head?, days.getLast? with
      | some first, some last =>
        let maxYear := (splitDash first.date).headI
        let minYear := (splitDash last.date).headI
        match createArchive days with
        | .error e => .error e
        | .ok archive =>
          match createIndex render strftime cfg days archive minYear maxYear with
          | .error e => .error e
          | .ok indexPage =>
            match createDayAndWeekPages render strftime cfg days archive minYear maxYear with
            | .error e => .error e
            | .ok dw =>
              match createJsonFeed render strftime urljoin cfg days with
              | .error e => .error e
              | .ok feed => .ok ⟨indexPage, dw.1, dw.2, feed⟩
      | _, _ => .error .indexError

/-- A small concrete configuration for the concrete-evaluation theorems. -/
def sampleConfig (days : Int) : Config :=
  ⟨"name", "author", "style.css", "https://e.org/", "https://e.org/feed.json",
   "fmt", "week %V, %Y", days, "tpl"⟩

/-- Identity renderer standing in for the external CommonMark collaborator
in concrete evaluations. -/
def idRender : String → String := fun s => s

/-- Constant date formatter standing in for `strftime` in concrete
evaluations. -/
def constDateFmt : String → Nat × Nat × Nat → String := fun _ _ => "DATE"

/-- Concatenating `urljoin` stand-in for concrete evaluations. -/
def appendUrljoin : String → String → String := fun a b => a ++ b

/-- One step of grouping consecutive equal-keyed `(yearWeek, dayBody)`
pairs: merge a pair into the runs of the pairs after it. -/
def mergeRun (p : String × String) (runs : List (String × String)) :
    List (String × String) :=
  match runs with
  | [] => [p]
  | q :: rs => if q.1 = p.1 then (p.1, p.2 ++ q.2) :: rs else p :: q :: rs

/-- The per-week runs of a `(yearWeek, dayBody)` sequence: consecutive pairs
with an equal year-week key collapse into one `(key, concatenated bodies)`
run.  This is the claim-side description of the week-accumulation loop of
`create_day_and_week_pages`. -/
def runsOf : List (String × String) → List (String × String)
  | [] => []
  | p :: rest => mergeRun p (runsOf rest)

/-- All `"YYYY-WW"` keys reconstructible from the archive's buckets: one per
stored week, joined back with its year key. -/
def archivePairs (archive : Archive) : List String :=
  archive.flatMap (fun p => p.2.map (fun w => p.1 ++ "-" ++ w))

/-- The invariant `create_archive` maintains between `seen` and the archive
under construction: year keys are distinct, the bucket contents are exactly
the seen year-weeks, every bucket is (weakly) ascending, and every stored
week's joined key has been seen. -/
def ArchInv (seen : List String) (ar : Archive) : Prop :=
  (ar.map Prod.fst).Nodup ∧
  List.Perm (archivePairs ar) seen ∧
  (∀ p ∈ ar, p.2.Pairwise (fun a b => strLe a b = true)) ∧
  (∀ p ∈ ar, ∀ w2 ∈ p.2, (p.1 ++ "-" ++ w2) ∈ seen)

/-- A decomposition of a template into literal segments and placeholder
tokens, used to state the substitution protocol of `create_page`. -/
inductive TemplatePiece
  | lit (s : String)
  | titleTok
  | yearRangeTok
  | labelTok
  | cssTok
  | nameTok
  | authorTok
  | versionTok
  | feedUrlTok
  | bodyTok
  | archiveTok
deriving DecidableEq

/-- The characters a template piece contributes to the template text. -/
def pieceChars : TemplatePiece → List Char
  | .lit s => s.data
  | .titleTok => tokTitle
  | .yearRangeTok => tokYearRange
  | .labelTok => tokLabel
  | .cssTok => tokCss
  | .nameTok => tokName
  | .authorTok => tokAuthor
  | .versionTok => tokVersion
  | .feedUrlTok => tokFeedUrl
  | .bodyTok => tokBody
  | .archiveTok => tokArchive

/-- Whether the piece is a placeholder token (not a literal segment). -/
def isTok : TemplatePiece → Bool
  | .lit _ => false
  | _ => true

/-- Render a template decomposition back to its character text. -/
def renderPieces : List TemplatePiece → List Char
  | [] => []
  | p :: rest => pieceChars p ++ renderPieces rest

/-- Replace every piece of one placeholder kind by a literal segment. -/
def substPieces (target : TemplatePiece) (rep : String)
    (items : List TemplatePiece) : List TemplatePiece :=
  items.map (fun q => if q = target then .lit rep else q)

/-- The value each placeholder receives per the claim: escaped scalars,
verbatim body and archive HTML. -/
def intendedValue (cfg : Config) (path title bodyHtml archiveHtml label yearRange : String) :
    TemplatePiece → String
  | .lit s => s
  | .titleTok => escape title
  | .yearRangeTok => escape yearRange
  | .labelTok => escape label
  | .cssTok => escape (cssFor path cfg.css)
  | .nameTok => escape cfg.name
  | .authorTok => escape cfg.author
  | .versionTok => escape pyVERSION
  | .feedUrlTok => escape cfg.feedUrl
  | .bodyTok => bodyHtml
  | .archiveTok => archiveHtml

/-- The claim-side result of the substitution protocol: every piece replaced
by its intended value. -/
def substitutedTemplate (cfg : Config)
    (path title bodyHtml archiveHtml label yearRange : String)
    (items : List TemplatePiece) : List Char :=
  renderPieces (items.map (fun q =>
    .lit (intendedValue cfg path title bodyHtml archiveHtml label yearRange q)))

/-! ## Auxiliary definitions used by the statements

These definitions support the theorems: which texts contain a separator
occurrence, how chunks re-join, the lines of a text, and the leading-date
shape of a chunk. -/

/-- Whether the two-character separator sequence `%` + newline occurs
anywhere in a character list. -/
def hasSepOcc : List Char → Bool
  | [] => false
  | '%' :: '\n' :: _ => true
  | _ :: cs => hasSepOcc cs

/-- Re-join chunk character lists with the `%` + newline separator
(the inverse of `splitPNL`). -/
def joinSepChars : List (List Char) → List Char
  | [] => []
  | [p] => p
  | p :: q :: rest => p ++ '%' :: '\n' :: joinSepChars (q :: rest)

/-- Re-join chunks with the separator, at the string level. -/
def joinSep : List String → String
  | [] => ""
  | [p] => p
  | p :: q :: rest => p ++ "%\n" ++ joinSep (q :: rest)

/-- `text.split('\n')` helper: the first line and the remaining lines. -/
def splitNLAux : List Char → List Char × List (List Char)
  | [] => ([], [])
  | '\n' :: cs => let r := splitNLAux cs; ([], r.1 :: r.2)
  | c :: cs => let r := splitNLAux cs; (c :: r.1, r.2)

/-- The lines of a text, as split at every newline. -/
def linesOf (text : String) : List (List Char) :=
  let r := splitNLAux text.data
  r.1 :: r.2

/-! ## Order lemmas for the lexicographic comparison -/

theorem lexLe_refl : ∀ l : List Char, lexLe l l = true
  | [] => rfl
  | c :: cs => by
    simp only [lexLe, lt_self_iff_false, if_false, if_true]
    simpa using lexLe_refl cs

theorem lexLe_total : ∀ a b : List Char, lexLe a b = true ∨ lexLe b a = true
  | [], _ => Or.inl rfl
  | _ :: _, [] => Or.inr rfl
  | x :: xs, y :: ys => by
    simp only [lexLe]
    rcases lt_trichotomy x y with hxy | rfl | hxy
    · exact Or.inl (by rw [if_pos hxy])
    · simpa using lexLe_total xs ys
    · exact Or.inr (by rw [if_pos hxy])

theorem lexLe_trans : ∀ a b c : List Char, lexLe a b = true → lexLe b c = true →
    lexLe a c = true
  | [], _, _, _, _ => rfl
  | _ :: _, [], _, h, _ => by simp [lexLe] at h
  | _ :: _, _ :: _, [], _, h => by simp [lexLe] at h
  | x :: xs, y :: ys, z :: zs, h1, h2 => by
    simp only [lexLe] at h1 h2 ⊢
    rcases lt_trichotomy x y with hxy | rfl | hxy
    · rcases lt_trichotomy y z with hyz | rfl | hyz
      · rw [if_pos (lt_trans hxy hyz)]
      · rw [if_pos hxy]
      · rw [if_neg (not_lt_of_gt hyz), if_neg (ne_of_gt hyz)] at h2
        simp at h2
    · simp only [lt_self_iff_false, if_false] at h1
      simp only [eq_self_iff_true, if_true] at h1
      rcases lt_trichotomy x z with hxz | rfl | hxz
      · rw [if_pos hxz]
      · simp only [lt_self_iff_false, if_false] at h2 ⊢
        simp only [eq_self_iff_true, if_true] at h2 ⊢
        exact lexLe_trans _ _ _ h1 h2
      · rw [if_neg (not_lt_of_gt hxz), if_neg (ne_of_gt hxz)] at h2
        simp at h2
    · rw [if_neg (not_lt_of_gt hxy), if_neg (ne_of_gt hxy)] at h1
      simp at h1

/-- Comparing two lists below a common first part compares the tails. -/
theorem lexLe_append_left : ∀ (p a b : List Char),
    lexLe (p ++ a) (p ++ b) = lexLe a b
  | [], _, _ => rfl
  | c :: p, a, b => by
    simp only [List.cons_append, lexLe, lt_self_iff_false, if_false]
    simpa using lexLe_append_left p a b

theorem strLe_total (a b : String) : strLe a b = true ∨ strLe b a = true :=
  lexLe_total a.data b.data

theorem strLe_trans {a b c : String} (h1 : strLe a b = true) (h2 : strLe b c = true) :
    strLe a c = true :=
  lexLe_trans a.data b.data c.data h1 h2

/-! ## The stable descending sorts -/

theorem mem_insertDayDesc {d x : Day} : ∀ l : List Day,
    (x ∈ insertDayDesc d l ↔ x = d ∨ x ∈ l)
  | [] => by simp [insertDayDesc]
  | e :: es => by
    simp only [insertDayDesc]
    split
    · simp only [List.mem_cons, mem_insertDayDesc es]
      tauto
    · simp [List.mem_cons]

theorem insertDayDesc_perm (d : Day) : ∀ l : List Day, List.Perm (insertDayDesc d l) (d :: l)
  | [] => by simp [insertDayDesc]
  | e :: es => by
    simp only [insertDayDesc]
    split
    · exact ((insertDayDesc_perm d es).cons e).trans (List.Perm.swap d e es)
    · exact List.Perm.refl _

theorem pairwise_insertDayDesc {d : Day} : ∀ l : List Day,
    l.Pairwise (fun a b => dayDescLe a b = true) →
    (insertDayDesc d l).Pairwise (fun a b => dayDescLe a b = true)
  | [], _ => by simp [insertDayDesc]
  | e :: es, h => by
    rw [List.pairwise_cons] at h
    simp only [insertDayDesc]
    split
    · rename_i hle
      rw [List.pairwise_cons]
      refine ⟨fun x hx => ?_, pairwise_insertDayDesc es h.2⟩
      rcases (mem_insertDayDesc es).mp hx with rfl | hx
      · exact hle
      · exact h.1 x hx
    · rename_i hgt
      have hed : dayDescLe d e = true := by
        rcases strLe_total d.date e.date with hc | hc
        · exact absurd hc (by simpa using hgt)
        · exact hc
      rw [List.pairwise_cons]
      refine ⟨fun x hx => ?_, List.pairwise_cons.mpr h⟩
      rcases List.mem_cons.mp hx with rfl | hx
      · exact hed
      · exact lexLe_trans _ _ _ (h.1 x hx) hed

theorem pySortDesc_perm (l : List Day) : List.Perm (pySortDesc l) l := by
  suffices h : ∀ (l acc : List Day),
      List.Perm (l.foldl (fun acc d => insertDayDesc d acc) acc) (acc ++ l) by
    simpa using h l []
  intro l
  induction l with
  | nil => simp
  | cons d rest ih =>
    intro acc
    exact ((ih (insertDayDesc d acc)).trans
      (((insertDayDesc_perm d acc).append_right rest).trans List.perm_middle.symm))

theorem pySortDesc_sorted (l : List Day) :
    (pySortDesc l).Pairwise (fun a b => dayDescLe a b = true) := by
  suffices h : ∀ (l acc : List Day), acc.Pairwise (fun a b => dayDescLe a b = true) →
      (l.foldl (fun acc d => insertDayDesc d acc) acc).Pairwise
        (fun a b => dayDescLe a b = true) by
    exact h l [] (by simp)
  intro l
  induction l with
  | nil => intro acc h; simpa using h
  | cons d rest ih => intro acc h; exact ih _ (pairwise_insertDayDesc _ h)

theorem mem_insertStrDesc {s x : String} : ∀ l : List String,
    (x ∈ insertStrDesc s l ↔ x = s ∨ x ∈ l)
  | [] => by simp [insertStrDesc]
  | t :: ts => by
    simp only [insertStrDesc]
    split
    · simp only [List.mem_cons, mem_insertStrDesc ts]
      tauto
    · simp [List.mem_cons]

theorem pairwise_insertStrDesc {s : String} : ∀ l : List String,
    l.Pairwise (fun a b => strLe b a = true) →
    (insertStrDesc s l).Pairwise (fun a b => strLe b a = true)
  | [], _ => by simp [insertStrDesc]
  | t :: ts, h => by
    rw [List.pairwise_cons] at h
    simp only [insertStrDesc]
    split
    · rename_i hle
      rw [List.pairwise_cons]
      refine ⟨fun x hx => ?_, pairwise_insertStrDesc ts h.2⟩
      rcases (mem_insertStrDesc ts).mp hx with rfl | hx
      · exact hle
      · exact h.1 x hx
    · rename_i hgt
      have hts : strLe t s = true := by
        rcases strLe_total s t with hc | hc
        · exact absurd hc (by simpa using hgt)
        · exact hc
      rw [List.pairwise_cons]
      refine ⟨fun x hx => ?_, List.pairwise_cons.mpr h⟩
      rcases List.mem_cons.mp hx with rfl | hx
      · exact hts
      · exact strLe_trans (h.1 x hx) hts

theorem sortStrDesc_sorted (l : List String) :
    (sortStrDesc l).Pairwise (fun a b => strLe b a = true) := by
  suffices h : ∀ (l acc : List String), acc.Pairwise (fun a b => strLe b a = true) →
      (l.foldl (fun acc s => insertStrDesc s acc) acc).Pairwise
        (fun a b => strLe b a = true) by
    exact h l [] (by simp)
  intro l
  induction l with
  | nil => intro acc h; simpa using h
  | cons s rest ih => intro acc h; exact ih _ (pairwise_insertStrDesc _ h)

/-! ## Invariants of `collect_days` -/

/-- The dates carried by the dated chunks of the input, in input order: one
date per chunk matching the date pattern. -/
def datedChunkDates (entries : List String) : List String :=
  entries.filterMap (fun e => (matchDatePattern e.data).map (fun r => String.mk r.1))

theorem except_map_ok {α β : Type} {f : α → β} {x : Except TumblelogError α} {y : β}
    (h : x.map f = .ok y) : ∃ a, x = .ok a ∧ y = f a := by
  cases x with
  | error e => simp [Except.map] at h
  | ok a =>
    refine ⟨a, rfl, ?_⟩
    simpa [Except.map] using h.symm

theorem appendToLast_map_date (e : String) : ∀ l : List Day,
    (appendToLast l e).map Day.date = l.map Day.date
  | [] => rfl
  | [d] => rfl
  | d :: d2 :: ds => by
    simp only [appendToLast, List.map_cons]
    rw [show appendToLast (d2 :: ds) e = appendToLast (d2 :: ds) e from rfl]
    have h := appendToLast_map_date e (d2 :: ds)
    simp only [List.map_cons] at h
    simp [h]

theorem appendToLast_snoc (e : String) : ∀ (l : List Day) (d : Day),
    appendToLast (l ++ [d]) e = l ++ [{ d with entries := d.entries ++ [e] }]
  | [], d => rfl
  | a :: l, d => by
    have h := appendToLast_snoc e l d
    cases l with
    | nil => simp [appendToLast]
    | cons b l2 =>
      simp only [List.cons_append, appendToLast, List.append_eq] at h ⊢
      rw [h]

theorem collectLoop_dates : ∀ (entries : List String) (date : Option String)
    (days out : List Day), collectLoop date days entries = .ok out →
    out.map Day.date = days.map Day.date ++ datedChunkDates entries
  | [], _, days, out, h => by
    simp only [collectLoop] at h
    cases h
    simp [datedChunkDates]
  | entry :: rest, date, days, out, h => by
    simp only [collectLoop] at h
    cases hm : matchDatePattern entry.data with
    | some r =>
      rw [hm] at h
      have ih := collectLoop_dates rest _ _ _ h
      rw [ih, appendToLast_map_date]
      simp [datedChunkDates, List.filterMap_cons, hm, List.append_assoc]
    | none =>
      rw [hm] at h
      cases date with
      | none => cases h
      | some d =>
        have ih := collectLoop_dates rest _ _ _ h
        rw [ih, appendToLast_map_date]
        simp [datedChunkDates, List.filterMap_cons, hm]

theorem appendToLast_entries_nonempty (e : String) : ∀ l : List Day,
    (∀ d ∈ l, d.entries ≠ []) → ∀ d ∈ appendToLast l e, d.entries ≠ []
  | [], _, d, hd => by cases hd
  | [a], _, d, hd => by
    simp only [appendToLast, List.mem_singleton] at hd
    subst hd; simp
  | a :: b :: l, h, d, hd => by
    simp only [appendToLast, List.mem_cons] at hd
    rcases hd with rfl | hd
    · exact h d (by simp)
    · exact appendToLast_entries_nonempty e (b :: l)
        (fun x hx => h x (List.mem_cons_of_mem a hx)) d hd

theorem appendToLast_ne_nil (e : String) : ∀ l : List Day, l ≠ [] →
    appendToLast l e ≠ []
  | [], h => absurd rfl h
  | [a], _ => by simp [appendToLast]
  | _ :: _ :: _, _ => by simp [appendToLast]

theorem collectLoop_nonempty_entries : ∀ (entries : List String) (date : Option String)
    (days out : List Day), collectLoop date days entries = .ok out →
    (∀ d ∈ days, d.entries ≠ []) → (date ≠ none → days ≠ []) →
    ∀ d ∈ out, d.entries ≠ []
  | [], _, days, out, h, hday, _ => by
    simp only [collectLoop] at h
    cases h
    exact hday
  | entry :: rest, date, days, out, h, hday, hne => by
    simp only [collectLoop] at h
    cases hm : matchDatePattern entry.data with
    | some r =>
      rw [hm] at h
      refine collectLoop_nonempty_entries rest _ _ _ h ?_ ?_
      · rw [appendToLast_snoc]
        intro d hd
        rcases List.mem_append.mp hd with hd | hd
        · exact hday d hd
        · rcases List.mem_singleton.mp hd with rfl
          simp
      · intro _
        rw [appendToLast_snoc]
        simp
    | none =>
      rw [hm] at h
      cases date with
      | none => cases h
      | some dt =>
        have hdays : days ≠ [] := hne (by simp)
        refine collectLoop_nonempty_entries rest _ _ _ h
          (appendToLast_entries_nonempty entry days hday)
          (fun _ => appendToLast_ne_nil entry days hdays)

/-! ## C1 and C10: the shape of the day collection -/

theorem collectDays_ok {entries : List String} {days : List Day}
    (h : collectDays entries = .ok days) :
    ∃ days0, collectLoop none [] entries = .ok days0 ∧ days = pySortDesc days0 :=
  except_map_ok h

theorem readTumblelogEntries_ok_ne_nil {text : String} {entries : List String}
    (h : readTumblelogEntries text = .ok entries) : entries ≠ [] := by
  simp only [readTumblelogEntries] at h
  split at h
  · cases h
  · cases h
    assumption

theorem collectLoop_ne_nil {e : String} {rest : List String} {out : List Day}
    (h : collectLoop none [] (e :: rest) = .ok out) : out ≠ [] := by
  have hd := collectLoop_dates (e :: rest) none [] out h
  simp only [List.map_nil, List.nil_append] at hd
  cases hm : matchDatePattern e.data with
  | none =>
    simp only [collectLoop, hm] at h
    cases h
  | some r =>
    have hdc : datedChunkDates (e :: rest) = String.mk r.1 :: datedChunkDates rest := by
      simp [datedChunkDates, List.filterMap_cons, hm]
    intro hnil
    rw [hnil, hdc] at hd
    cases hd

theorem head?_isSome_of_ne_nil : ∀ l : List Day, l ≠ [] → l.head?.isSome = true
  | [], h => absurd rfl h
  | _ :: _, _ => rfl

theorem getLast?_isSome_of_ne_nil : ∀ l : List Day, l ≠ [] → l.getLast?.isSome = true
  | [], h => absurd rfl h
  | [_], _ => rfl
  | a :: b :: l, _ => by
    rw [List.getLast?_cons_cons]
    exact getLast?_isSome_of_ne_nil (b :: l) (by simp)

/-- **C1 (amended)**: for every accepted input, the Day sequence returned by
`collect_days` is weakly descending by date and carries exactly one Day per
dated chunk (so its dates are a permutation of the dated chunks' dates);
whenever the dated chunks bear pairwise-distinct dates, the sequence is
strictly descending, no two Days share a date, and the number of Day records
equals the number of distinct dates in the input.  (A later chunk repeating
an earlier date yields a second Day record, not a merge — see the
counterexample.) -/
theorem collectDays_descending_dates (entries : List String) (days : List Day)
    (h : collectDays entries = .ok days) :
    days.Pairwise (fun a b => strLe b.date a.date = true) ∧
    List.Perm (days.map Day.date) (datedChunkDates entries) ∧
    ((datedChunkDates entries).Nodup →
      days.Pairwise (fun a b => strLe b.date a.date = true ∧ a.date ≠ b.date) ∧
      days.length = ((datedChunkDates entries).dedup).length) := by
  obtain ⟨days0, h0, rfl⟩ := collectDays_ok h
  have hdates : days0.map Day.date = datedChunkDates entries := by
    simpa using collectLoop_dates entries none [] days0 h0
  have hperm : List.Perm (pySortDesc days0) days0 := pySortDesc_perm days0
  have hpermd : List.Perm ((pySortDesc days0).map Day.date) (datedChunkDates entries) := by
    rw [← hdates]
    exact hperm.map Day.date
  have hsorted := pySortDesc_sorted days0
  refine ⟨by simpa [dayDescLe] using hsorted, hpermd, fun hnd => ?_⟩
  have hnodup : ((pySortDesc days0).map Day.date).Nodup := hpermd.nodup_iff.mpr hnd
  have hne : (pySortDesc days0).Pairwise (fun a b => a.date ≠ b.date) :=
    List.pairwise_map.mp hnodup
  constructor
  · exact (List.Pairwise.and (by simpa [dayDescLe] using hsorted) hne)
  · rw [List.dedup_eq_self.mpr hnd]
    simpa using hpermd.length_eq

/-- Witness for the C1 theorem on a concrete two-day input. -/
theorem collectDays_descending_dates_witness :
    collectDays ["2020-01-03\nb\n", "2020-01-01\na\n"] =
      .ok [⟨"2020-01-03", "", ["b\n"]⟩, ⟨"2020-01-01", "", ["a\n"]⟩] ∧
    (([⟨"2020-01-03", "", ["b\n"]⟩, ⟨"2020-01-01", "", ["a\n"]⟩] : List Day).Pairwise
        (fun a b => strLe b.date a.date = true) ∧
      List.Perm (([⟨"2020-01-03", "", ["b\n"]⟩, ⟨"2020-01-01", "", ["a\n"]⟩] :
          List Day).map Day.date)
        (datedChunkDates ["2020-01-03\nb\n", "2020-01-01\na\n"]) ∧
      ((datedChunkDates ["2020-01-03\nb\n", "2020-01-01\na\n"]).Nodup →
        (([⟨"2020-01-03", "", ["b\n"]⟩, ⟨"2020-01-01", "", ["a\n"]⟩] :
            List Day)).Pairwise
          (fun a b => strLe b.date a.date = true ∧ a.date ≠ b.date) ∧
        ([⟨"2020-01-03", "", ["b\n"]⟩, ⟨"2020-01-01", "", ["a\n"]⟩] :
            List Day).length =
          ((datedChunkDates ["2020-01-03\nb\n", "2020-01-01\na\n"]).dedup).length)) :=
  ⟨rfl, collectDays_descending_dates _ _ rfl⟩

/-- **C1 counterexample**: two dated chunks with the same date produce two
Day records with that date — they are not merged, the dates are not unique,
and the record count (2) exceeds the distinct-date count (1). -/
theorem collectDays_duplicate_date_counterexample :
    collectDays ["2020-01-01 A\nx\n", "2020-01-01 B\ny\n"] =
      .ok [⟨"2020-01-01", "A", ["x\n"]⟩, ⟨"2020-01-01", "B", ["y\n"]⟩] ∧
    ¬ (([⟨"2020-01-01", "A", ["x\n"]⟩, ⟨"2020-01-01", "B", ["y\n"]⟩] : List Day).map
        Day.date).Nodup ∧
    ([⟨"2020-01-01", "A", ["x\n"]⟩, ⟨"2020-01-01", "B", ["y\n"]⟩] : List Day).length ≠
      ((([⟨"2020-01-01", "A", ["x\n"]⟩, ⟨"2020-01-01", "B", ["y\n"]⟩] : List Day).map
        Day.date).dedup).length :=
  ⟨rfl, by decide, by decide⟩

/-- **C10**: whenever `collect_days` returns, every returned Day has a
non-empty entry list; and whenever it returns on the output of
`read_tumblelog_entries` (as `create_blog` invokes it), the Day sequence is
non-empty, so the orchestrator's `days[0]` and `days[-1]` accesses (modelled
by `head?` and `getLast?`) find a day. -/
theorem collectDays_nonempty_invariants :
    (∀ (entries : List String) (days : List Day), collectDays entries = .ok days →
      ∀ d ∈ days, d.entries ≠ []) ∧
    (∀ (text : String) (entries : List String) (days : List Day),
      readTumblelogEntries text = .ok entries → collectDays entries = .ok days →
      days ≠ [] ∧ days.head?.isSome = true ∧ days.getLast?.isSome = true) := by
  constructor
  · intro entries days h d hd
    obtain ⟨days0, h0, rfl⟩ := collectDays_ok h
    have hmem : d ∈ days0 := (pySortDesc_perm days0).subset hd
    exact collectLoop_nonempty_entries entries none [] days0 h0
      (by intro d hd; cases hd) (by intro hc; exact absurd rfl hc) d hmem
  · intro text entries days hr hc
    obtain ⟨days0, h0, rfl⟩ := collectDays_ok hc
    obtain ⟨e, rest, rfl⟩ := List.exists_cons_of_ne_nil (readTumblelogEntries_ok_ne_nil hr)
    have h1 : days0 ≠ [] := collectLoop_ne_nil h0
    have h2 : pySortDesc days0 ≠ [] := by
      intro hnil
      have hlen := (pySortDesc_perm days0).length_eq
      rw [hnil] at hlen
      exact h1 (List.eq_nil_of_length_eq_zero hlen.symm)
    exact ⟨h2, head?_isSome_of_ne_nil _ h2, getLast?_isSome_of_ne_nil _ h2⟩

/-- Witness for the C10 theorem on a concrete input. -/
theorem collectDays_nonempty_invariants_witness :
    (∀ d ∈ [(⟨"2020-01-01", "", ["x\n"]⟩ : Day)], d.entries ≠ []) ∧
    ([(⟨"2020-01-01", "", ["x\n"]⟩ : Day)] ≠ [] ∧
      ([(⟨"2020-01-01", "", ["x\n"]⟩ : Day)] : List Day).head?.isSome = true ∧
      ([(⟨"2020-01-01", "", ["x\n"]⟩ : Day)] : List Day).getLast?.isSome = true) :=
  ⟨collectDays_nonempty_invariants.1 ["2020-01-01\nx\n"] _ rfl,
   collectDays_nonempty_invariants.2 "2020-01-01\nx\n" ["2020-01-01\nx\n"] _ rfl rfl⟩

/-! ## C8: where the entry reader splits -/

theorem splitPNL_cons_ne (c : Char) (cs : List Char)
    (h : ¬(c = '%' ∧ cs.head? = some '\n')) :
    splitPNL (c :: cs) = ((c :: (splitPNL cs).1, (splitPNL cs).2)) := by
  rw [splitPNL.eq_def]
  split
  · rename_i heq
    cases heq
  · rename_i t heq
    injection heq with h1 h2
    subst h1; subst h2
    exact absurd ⟨rfl, rfl⟩ h
  · rename_i x c2 cs2 hne heq
    injection heq with h1 h2
    subst h1; subst h2
    rfl

theorem hasSepOcc_cons_ne (c : Char) (cs : List Char)
    (h : ¬(c = '%' ∧ cs.head? = some '\n')) : hasSepOcc (c :: cs) = hasSepOcc cs := by
  rw [hasSepOcc.eq_def]
  split
  · rename_i heq
    cases heq
  · rename_i t heq
    injection heq with h1 h2
    subst h1; subst h2
    exact absurd ⟨rfl, rfl⟩ h
  · rename_i x c2 cs2 hne heq
    injection heq with h1 h2
    subst h1; subst h2
    rfl

theorem head_eq_nl_of_head? {cs : List Char} (hh : cs.head? = some '\n') :
    ∃ t, cs = '\n' :: t := by
  cases cs with
  | nil => cases hh
  | cons a t =>
    injection hh with h2
    subst h2
    exact ⟨t, rfl⟩

theorem splitPNL_sepfree : ∀ l : List Char, hasSepOcc l = false → splitPNL l = (l, [])
  | [], _ => rfl
  | c :: cs, h => by
    have hc : ¬(c = '%' ∧ cs.head? = some '\n') := by
      rintro ⟨rfl, hh⟩
      obtain ⟨t, rfl⟩ := head_eq_nl_of_head? hh
      simp [hasSepOcc] at h
    have htail : hasSepOcc cs = false := by rwa [hasSepOcc_cons_ne c cs hc] at h
    rw [splitPNL_cons_ne c cs hc, splitPNL_sepfree cs htail]

theorem splitPNL_append_sep : ∀ (a t : List Char), hasSepOcc a = false →
    splitPNL (a ++ '%' :: '\n' :: t) = (a, (splitPNL t).1 :: (splitPNL t).2)
  | [], t, _ => by simp only [List.nil_append]; rfl
  | c :: a2, t, h => by
    have hc : ¬(c = '%' ∧ a2.head? = some '\n') := by
      rintro ⟨rfl, hh⟩
      obtain ⟨t2, rfl⟩ := head_eq_nl_of_head? hh
      simp [hasSepOcc] at h
    have hcond : ¬(c = '%' ∧ ((a2 ++ '%' :: '\n' :: t).head? = some '\n')) := by
      rintro ⟨rfl, hh⟩
      cases a2 with
      | nil => simp at hh
      | cons b bs =>
        simp only [List.cons_append, List.head?_cons] at hh
        injection hh with h2
        exact hc ⟨rfl, by simp [h2]⟩
    have htail : hasSepOcc a2 = false := by rwa [hasSepOcc_cons_ne c a2 hc] at h
    rw [List.cons_append, splitPNL_cons_ne c _ hcond, splitPNL_append_sep a2 t htail]

theorem joinSepChars_cons_head (c : Char) (p : List Char) : ∀ rest : List (List Char),
    joinSepChars ((c :: p) :: rest) = c :: joinSepChars (p :: rest)
  | [] => rfl
  | _ :: _ => rfl

theorem joinSepChars_splitPNL : ∀ l : List Char,
    joinSepChars ((splitPNL l).1 :: (splitPNL l).2) = l
  | [] => rfl
  | c :: cs => by
    by_cases h : c = '%' ∧ cs.head? = some '\n'
    · obtain ⟨rfl, hh⟩ := h
      obtain ⟨t, rfl⟩ := head_eq_nl_of_head? hh
      show joinSepChars ([] :: (splitPNL t).1 :: (splitPNL t).2) = _
      show [] ++ '%' :: '\n' :: joinSepChars ((splitPNL t).1 :: (splitPNL t).2) = _
      rw [List.nil_append, joinSepChars_splitPNL t]
    · rw [splitPNL_cons_ne c cs h]
      show joinSepChars ((c :: (splitPNL cs).1) :: (splitPNL cs).2) = _
      rw [joinSepChars_cons_head, joinSepChars_splitPNL cs]

theorem mk_data (s : String) : String.mk s.data = s := rfl

theorem joinSep_data : ∀ ps : List String,
    (joinSep ps).data = joinSepChars (ps.map String.data)
  | [] => rfl
  | [p] => rfl
  | p :: q :: rest => by
    show (p ++ "%\n" ++ joinSep (q :: rest)).data = _
    rw [String.data_append, String.data_append, joinSep_data (q :: rest)]
    show (p.data ++ ['%', '\n']) ++ _ = _
    rw [List.append_assoc]
    rfl

/-- **C8 (amended)**: the entry reader splits the input exactly at the
occurrences of the two-character sequence `%` followed by a newline:
re-joining the chunks with that separator restores the input text, and
splitting any separator-joined list of separator-free chunks returns exactly
those chunks.  Hence a `%` that ends a line acts as a separator even when
other text precedes it on the line (see the counterexample), and a final `%`
not followed by a newline does not. -/
theorem readChunks_splits_at_sep :
    (∀ text : String, joinSep (readChunks text) = text) ∧
    (∀ ps : List String, ps ≠ [] → (∀ p ∈ ps, hasSepOcc p.data = false) →
      readChunks (joinSep ps) = ps) := by
  constructor
  · intro text
    have hmap : (readChunks text).map String.data =
        (splitPNL text.data).1 :: (splitPNL text.data).2 := by
      show (((splitPNL text.data).1 :: (splitPNL text.data).2).map
        (fun l => String.mk l)).map String.data = _
      rw [List.map_map]
      exact List.map_id' _
    have hdata : (joinSep (readChunks text)).data = text.data := by
      rw [joinSep_data, hmap, joinSepChars_splitPNL]
    calc joinSep (readChunks text) = String.mk (joinSep (readChunks text)).data := rfl
      _ = String.mk text.data := by rw [hdata]
      _ = text := rfl
  · intro ps hne hfree
    have key : ∀ ll : List (List Char), ll ≠ [] → (∀ p ∈ ll, hasSepOcc p = false) →
        (splitPNL (joinSepChars ll)).1 :: (splitPNL (joinSepChars ll)).2 = ll := by
      intro ll
      induction ll with
      | nil => intro h; exact absurd rfl h
      | cons p rest ih =>
        intro _ hfree2
        cases rest with
        | nil =>
          show (splitPNL p).1 :: (splitPNL p).2 = [p]
          rw [splitPNL_sepfree p (hfree2 p (by simp))]
        | cons q rest2 =>
          show (splitPNL (p ++ '%' :: '\n' :: joinSepChars (q :: rest2))).1 ::
            (splitPNL (p ++ '%' :: '\n' :: joinSepChars (q :: rest2))).2 = p :: q :: rest2
          rw [splitPNL_append_sep p _ (hfree2 p (by simp))]
          have hih := ih (by simp) (fun x hx => hfree2 x (List.mem_cons_of_mem p hx))
          exact congrArg (p :: ·) hih
    have hdata := key (ps.map String.data)
      (by simpa using hne)
      (by
        intro p hp
        obtain ⟨s, hs, rfl⟩ := List.mem_map.mp hp
        exact hfree s hs)
    show ((splitPNL (joinSep ps).data).1 :: (splitPNL (joinSep ps).data).2).map
      (fun l => String.mk l) = ps
    rw [joinSep_data, hdata, List.map_map]
    exact List.map_id' ps

/-- Witness for the C8 theorem at concrete inputs. -/
theorem readChunks_splits_at_sep_witness :
    joinSep (readChunks "a\n%\nb") = "a\n%\nb" ∧
    readChunks (joinSep ["a\n", "b"]) = ["a\n", "b"] :=
  ⟨readChunks_splits_at_sep.1 "a\n%\nb",
   readChunks_splits_at_sep.2 ["a\n", "b"] (by decide) (by decide)⟩

/-- **C8 counterexample**: the input `"2020-01-01\nfoo 100%\nbar\n"` has no
line consisting solely of `%`, yet the reader splits it into two chunks at
the `%` ending the second line. -/
theorem readTumblelogEntries_mid_line_counterexample :
    readTumblelogEntries "2020-01-01\nfoo 100%\nbar\n" =
      .ok ["2020-01-01\nfoo 100", "bar\n"] ∧
    (∀ line ∈ linesOf "2020-01-01\nfoo 100%\nbar\n", line ≠ ['%']) :=
  ⟨rfl, by decide⟩

/-! ## C2: the year-range label and the `min-year` NameError -/

/-- **C2 (code evaluation)**: when `min_year` equals `max_year` the label is
that single year; when they differ, the source's f-string interpolates the
undefined name `min-year` (line 202), so Python raises `NameError` and
`create_page` produces no page at all — for every template and every other
argument.  The spec's intended descending branch (`"min–max"` with an
en-dash) is never produced. -/
theorem createPage_year_range_bug (cfg : Config)
    (path title bodyHtml archiveHtml label : String) :
    yearRangeOf "2020" "2020" = .ok "2020" ∧
    yearRangeOf "2019" "2020" = .error .nameError ∧
    createPage cfg path title bodyHtml archiveHtml label "2019" "2020" =
      .error .nameError :=
  ⟨rfl, rfl, rfl⟩

/-! ## C4: fatal errors on degenerate input -/

theorem matchDatePattern_eq_none_of_no_shape (l : List Char)
    (h : hasLeadingDateShape l = false) : matchDatePattern l = none := by
  simp [matchDatePattern, h]

/-- **C4**: an input whose chunks are all empty (nothing between separators)
makes the whole run abort with `NoEntriesError`, and an input whose first
non-empty chunk does not open with a `YYYY-MM-DD` date aborts with
`NoDateSpecified`.  In both cases `create_blog` returns the error before any
output value is produced (the `Except` result carries no `Outputs`). -/
theorem createBlog_error_cases (render : String → String)
    (strftime : String → Nat × Nat × Nat → String) (urljoin : String → String → String)
    (cfg : Config) :
    (∀ text : String, (∀ c ∈ readChunks text, c = "") →
      createBlog render strftime urljoin cfg text = .error .noEntries) ∧
    (∀ (text e : String) (rest : List String),
      (readChunks text).filter (fun item => item ≠ "") = e :: rest →
      hasLeadingDateShape e.data = false →
      createBlog render strftime urljoin cfg text = .error .noDateSpecified) := by
  constructor
  · intro text hall
    have hfil : (readChunks text).filter (fun item => item ≠ "") = [] := by
      rw [List.filter_eq_nil_iff]
      intro a ha
      simp [hall a ha]
    have hread : readTumblelogEntries text = .error .noEntries := by
      simp only [readTumblelogEntries]
      rw [hfil]
      rfl
    simp [createBlog, hread]
  · intro text e rest hfil hshape
    have hread : readTumblelogEntries text = .ok (e :: rest) := by
      simp only [readTumblelogEntries]
      rw [hfil]
      rfl
    have hcoll : collectDays (e :: rest) = .error .noDateSpecified := by
      simp only [collectDays, collectLoop]
      rw [matchDatePattern_eq_none_of_no_shape e.data hshape]
      rfl
    simp [createBlog, hread, hcoll]

/-- Witness for the C4 theorem: `"%\n"` aborts with `NoEntriesError`; a
first chunk without a leading date aborts with `NoDateSpecified`. -/
theorem createBlog_error_cases_witness :
    createBlog (fun s => s) (fun _ _ => "") (fun a b => a ++ b)
      ⟨"n", "a", "c", "u", "f", "d", "l", 14, "t"⟩ "%\n" = .error .noEntries ∧
    createBlog (fun s => s) (fun _ _ => "") (fun a b => a ++ b)
      ⟨"n", "a", "c", "u", "f", "d", "l", 14, "t"⟩ "no date here\ntext\n" =
      .error .noDateSpecified :=
  ⟨(createBlog_error_cases _ _ _ _).1 "%\n" (by decide),
   (createBlog_error_cases _ _ _ _).2 "no date here\ntext\n" "no date here\ntext\n" []
     (by decide) (by decide)⟩

/-! ## String concatenation lemmas -/

theorem str_ext {a b : String} (h : a.data = b.data) : a = b := by
  cases a
  cases b
  cases h
  rfl

theorem str_empty_append (s : String) : "" ++ s = s :=
  str_ext (by rw [String.data_append]; rfl)

theorem str_append_empty (s : String) : s ++ "" = s :=
  str_ext (by rw [String.data_append]; simp)

theorem str_append_assoc (a b c : String) : (a ++ b) ++ c = a ++ (b ++ c) :=
  str_ext (by simp only [String.data_append]; rw [List.append_assoc])

theorem strFoldl_append (a : String) : ∀ t : List String,
    t.foldl (fun r s => r ++ s) a = a ++ t.foldl (fun r s => r ++ s) ""
  | [] => (str_append_empty a).symm
  | h :: t => by
    simp only [List.foldl_cons]
    rw [strFoldl_append (a ++ h) t, strFoldl_append ("" ++ h) t, str_empty_append,
      str_append_assoc]

theorem strJoin_cons (h : String) (t : List String) :
    String.join (h :: t) = h ++ String.join t := by
  show (h :: t).foldl (fun r s => r ++ s) "" = _
  simp only [List.foldl_cons]
  rw [strFoldl_append ("" ++ h) t, str_empty_append]
  rfl

/-! ## C5: the days-limit cutoff -/

theorem exMapM_ok_length {α β : Type} {f : α → Except TumblelogError β} :
    ∀ {l : List α} {out : List β}, exMapM f l = .ok out → out.length = l.length := by
  intro l
  induction l with
  | nil =>
    intro out h
    cases h
    rfl
  | cons a rest ih =>
    intro out h
    simp only [exMapM] at h
    cases hf : f a with
    | error e => rw [hf] at h; cases h
    | ok b =>
      rw [hf] at h
      obtain ⟨bs, hbs, rfl⟩ := except_map_ok h
      simp [ih hbs]

theorem feedLoop_take (render : String → String) (strftime : String → Nat × Nat × Nat → String)
    (urljoin : String → String → String) (cfg : Config) :
    ∀ (days : List Day) (k : Int), 1 ≤ k →
    feedLoop render strftime urljoin cfg k days =
      exMapM (feedItemFor render strftime urljoin cfg) (days.take k.toNat)
  | [], k, _ => by simp [feedLoop, exMapM]
  | day :: rest, k, hk => by
    have htn : k.toNat = (k.toNat - 1) + 1 := by omega
    rw [htn]
    cases hf : feedItemFor render strftime urljoin cfg day with
    | error e => simp [feedLoop, exMapM, hf, List.take_succ_cons]
    | ok item =>
      by_cases h1 : k - 1 = 0
      · have h0 : k.toNat - 1 = 0 := by omega
        simp [feedLoop, exMapM, hf, List.take_succ_cons, h1, h0, Except.map]
      · simp only [feedLoop, List.take_succ_cons, exMapM, hf, if_neg h1]
        rw [feedLoop_take render strftime urljoin cfg rest (k - 1) (by omega)]
        have h2 : (k - 1).toNat = k.toNat - 1 := by omega
        rw [h2]

theorem feedLoop_all (render : String → String) (strftime : String → Nat × Nat × Nat → String)
    (urljoin : String → String → String) (cfg : Config) :
    ∀ (days : List Day) (k : Int), k ≤ 0 →
    feedLoop render strftime urljoin cfg k days =
      exMapM (feedItemFor render strftime urljoin cfg) days
  | [], k, _ => by simp [feedLoop, exMapM]
  | day :: rest, k, hk => by
    cases hf : feedItemFor render strftime urljoin cfg day with
    | error e => simp [feedLoop, exMapM, hf]
    | ok item =>
      simp only [feedLoop, exMapM, hf, if_neg (by omega : ¬(k - 1 = 0))]
      rw [feedLoop_all render strftime urljoin cfg rest (k - 1) (by omega)]

theorem indexBodyLoop_take (render : String → String)
    (strftime : String → Nat × Nat × Nat → String) (dateFormat : String) :
    ∀ (days : List Day) (k : Int), 1 ≤ k →
    indexBodyLoop render strftime dateFormat k days =
      (exMapM (indexDayHtml render strftime dateFormat) (days.take k.toNat)).map String.join
  | [], k, _ => by simp [indexBodyLoop, exMapM, Except.map, String.join]
  | day :: rest, k, hk => by
    have htn : k.toNat = (k.toNat - 1) + 1 := by omega
    rw [htn]
    cases hf : indexDayHtml render strftime dateFormat day with
    | error e => simp [indexBodyLoop, exMapM, hf, List.take_succ_cons, Except.map]
    | ok dayHtml =>
      by_cases h1 : k - 1 = 0
      · have h0 : k.toNat - 1 = 0 := by omega
        simp [indexBodyLoop, exMapM, hf, List.take_succ_cons, h1, h0, Except.map,
          strJoin_cons, str_append_empty, String.join]
      · simp only [indexBodyLoop, List.take_succ_cons, exMapM, hf, if_neg h1]
        rw [indexBodyLoop_take render strftime dateFormat rest (k - 1) (by omega)]
        have h2 : (k - 1).toNat = k.toNat - 1 := by omega
        rw [h2]
        cases exMapM (indexDayHtml render strftime dateFormat) (rest.take (k.toNat - 1)) with
        | error e => rfl
        | ok hs => simp [Except.map, strJoin_cons]

theorem indexBodyLoop_all (render : String → String)
    (strftime : String → Nat × Nat × Nat → String) (dateFormat : String) :
    ∀ (days : List Day) (k : Int), k ≤ 0 →
    indexBodyLoop render strftime dateFormat k days =
      (exMapM (indexDayHtml render strftime dateFormat) days).map String.join
  | [], k, _ => by simp [indexBodyLoop, exMapM, Except.map, String.join]
  | day :: rest, k, hk => by
    cases hf : indexDayHtml render strftime dateFormat day with
    | error e => simp [indexBodyLoop, exMapM, hf, Except.map]
    | ok dayHtml =>
      simp only [indexBodyLoop, exMapM, hf, if_neg (by omega : ¬(k - 1 = 0))]
      rw [indexBodyLoop_all render strftime dateFormat rest (k - 1) (by omega)]
      cases exMapM (indexDayHtml render strftime dateFormat) rest with
      | error e => rfl
      | ok hs => simp [Except.map, strJoin_cons]

/-- **C5 (amended)**: with the positive limit `k` that `create_index` and
`create_json_feed` read from `config['days']`, the home-page body and the
feed items are built from exactly `days.take k` — the `k` most recent days
of the descending sequence; the feed item count is `min k totalDays`, so it
never exceeds `k` and equals `k` whenever `0 < k < totalDays`.  A
non-positive limit (e.g. `--days 0`) never trips the `if not todo: break`
test, so every day is rendered — the claim's "never exceeds the limit" fails
there (see the counterexample). -/
theorem days_limit_cutoff (render : String → String)
    (strftime : String → Nat × Nat × Nat → String) (urljoin : String → String → String)
    (cfg : Config) (k : Int) (days : List Day) :
    (1 ≤ k →
      feedLoop render strftime urljoin cfg k days =
        exMapM (feedItemFor render strftime urljoin cfg) (days.take k.toNat) ∧
      indexBodyLoop render strftime cfg.dateFormat k days =
        (exMapM (indexDayHtml render strftime cfg.dateFormat)
          (days.take k.toNat)).map String.join ∧
      (∀ items, feedLoop render strftime urljoin cfg k days = .ok items →
        items.length = min k.toNat days.length)) ∧
    (k ≤ 0 →
      feedLoop render strftime urljoin cfg k days =
        exMapM (feedItemFor render strftime urljoin cfg) days ∧
      indexBodyLoop render strftime cfg.dateFormat k days =
        (exMapM (indexDayHtml render strftime cfg.dateFormat) days).map String.join) := by
  constructor
  · intro hk
    refine ⟨feedLoop_take render strftime urljoin cfg days k hk,
      indexBodyLoop_take render strftime cfg.dateFormat days k hk, ?_⟩
    intro items hitems
    rw [feedLoop_take render strftime urljoin cfg days k hk] at hitems
    rw [exMapM_ok_length hitems, List.length_take]
  · intro hk
    exact ⟨feedLoop_all render strftime urljoin cfg days k hk,
      indexBodyLoop_all render strftime cfg.dateFormat days k hk⟩

/-- Witness for the C5 theorem: limit 1 on a two-day site selects exactly
the most recent day, in the feed and the home page body. -/
theorem days_limit_cutoff_witness :
    (feedLoop idRender constDateFmt appendUrljoin (sampleConfig 1) 1
        [⟨"2020-01-02", "", ["y"]⟩, ⟨"2020-01-01", "", ["x"]⟩] =
      exMapM (feedItemFor idRender constDateFmt appendUrljoin (sampleConfig 1))
        ([⟨"2020-01-02", "", ["y"]⟩, ⟨"2020-01-01", "", ["x"]⟩].take (1 : Int).toNat) ∧
      indexBodyLoop idRender constDateFmt (sampleConfig 1).dateFormat 1
        [⟨"2020-01-02", "", ["y"]⟩, ⟨"2020-01-01", "", ["x"]⟩] =
        (exMapM (indexDayHtml idRender constDateFmt (sampleConfig 1).dateFormat)
          ([⟨"2020-01-02", "", ["y"]⟩, ⟨"2020-01-01", "", ["x"]⟩].take
            (1 : Int).toNat)).map String.join ∧
      (∀ items, feedLoop idRender constDateFmt appendUrljoin (sampleConfig 1) 1
          [⟨"2020-01-02", "", ["y"]⟩, ⟨"2020-01-01", "", ["x"]⟩] = .ok items →
        items.length = min (1 : Int).toNat
          ([⟨"2020-01-02", "", ["y"]⟩, ⟨"2020-01-01", "", ["x"]⟩] : List Day).length)) :=
  (days_limit_cutoff idRender constDateFmt appendUrljoin (sampleConfig 1) 1
    [⟨"2020-01-02", "", ["y"]⟩, ⟨"2020-01-01", "", ["x"]⟩]).1 (by decide)

/-- **C5 counterexample**: with the configured limit `0` and one day, the
feed contains one item — more than the limit — because `todo` goes negative
and the loop never breaks. -/
theorem days_limit_zero_counterexample :
    (createJsonFeed idRender constDateFmt appendUrljoin (sampleConfig 0)
        [⟨"2020-01-01", "", ["x"]⟩]).map (fun f => f.items.length) = .ok 1 ∧
    ¬ ((1 : Int) ≤ 0) :=
  ⟨rfl, by decide⟩

/-! ## C9: next/prev navigation -/

theorem escapeChar_data_ne_nil (c : Char) : (escapeChar c).data ≠ [] := by
  unfold escapeChar
  split_ifs <;> first | decide | simp

theorem escape_eq_empty_iff (s : String) : escape s = "" ↔ s = "" := by
  constructor
  · intro h
    cases hs : s.data with
    | nil => exact str_ext (by rw [hs])
    | cons c cs =>
      exfalso
      have hd : (escape s).data = [] := by rw [h]
      rw [show escape s = String.join ((s.data).map escapeChar) from rfl, hs,
        List.map_cons, strJoin_cons, String.data_append] at hd
      exact escapeChar_data_ne_nil c (List.append_eq_nil.mp hd).1
  · intro h
    rw [h]
    rfl

theorem htmlLinkForDay_characterization (strftime : String → Nat × Nat × Nat → String)
    (dateFormat : String) (day : Day) (p : Nat × Nat × Nat) (ys ms ds : String)
    (hp : parseDate day.date = .ok p) (hsplit : splitDash day.date = [ys, ms, ds]) :
    htmlLinkForDay strftime dateFormat day =
      .ok ("<a href=\"" ++ "../../" ++ ys ++ "/" ++ ms ++ "/" ++ ds ++ ".html" ++
        "\" title=\"" ++ escape (strftime dateFormat p) ++ "\">" ++
        (if day.title = "" then escape (strftime dateFormat p) else escape day.title) ++
        "</a>") := by
  simp only [htmlLinkForDay, hp, hsplit]
  by_cases ht : day.title = ""
  · simp only [if_pos ((escape_eq_empty_iff day.title).mpr ht), if_pos ht]
  · simp only [if_neg (fun hc => ht ((escape_eq_empty_iff day.title).mp hc)), if_neg ht]

/-- **C9**: for a day at position `index` in the sorted sequence of length
`n`: a single-day site has no navigation block; otherwise the block contains
a "next" link to `days[index-1]` exactly when `index > 0` (the slot is the
empty string at the latest day) and a "prev" link to `days[index+1]` exactly
when `index < n-1` (empty at the earliest day); each link's text is the
escaped day title or, when the title is empty, the escaped formatted date
label (final conjunct). -/
theorem htmlForNextPrev_characterization (strftime : String → Nat × Nat × Nat → String)
    (dateFormat : String) (days : List Day) (index : Nat) :
    (days.length = 1 → htmlForNextPrev strftime dateFormat days index = .ok "") ∧
    (days.length ≠ 1 → index = 0 → index < days.length - 1 →
      ∀ (dp : Day) (lp : String), days.get? (index + 1) = some dp →
        htmlLinkForDay strftime dateFormat dp = .ok lp →
        htmlForNextPrev strftime dateFormat days index =
          .ok ("<nav class=\"tl-next-prev\">\n" ++ "" ++
            ("  <div class=\"tl-left-arrow\">←</div>" ++ "<div class=\"prev\">" ++
              lp ++ "</div>\n") ++ "</nav>\n")) ∧
    (days.length ≠ 1 → index ≠ 0 → index = days.length - 1 →
      ∀ (dn : Day) (ln : String), days.get? (index - 1) = some dn →
        htmlLinkForDay strftime dateFormat dn = .ok ln →
        htmlForNextPrev strftime dateFormat days index =
          .ok ("<nav class=\"tl-next-prev\">\n" ++
            ("  <div class=\"next\">" ++ ln ++ "</div>" ++
              "<div class=\"tl-right-arrow\">→</div>\n") ++ "" ++ "</nav>\n")) ∧
    (days.length ≠ 1 → index ≠ 0 → index < days.length - 1 →
      ∀ (dn dp : Day) (ln lp : String), days.get? (index - 1) = some dn →
        days.get? (index + 1) = some dp →
        htmlLinkForDay strftime dateFormat dn = .ok ln →
        htmlLinkForDay strftime dateFormat dp = .ok lp →
        htmlForNextPrev strftime dateFormat days index =
          .ok ("<nav class=\"tl-next-prev\">\n" ++
            ("  <div class=\"next\">" ++ ln ++ "</div>" ++
              "<div class=\"tl-right-arrow\">→</div>\n") ++
            ("  <div class=\"tl-left-arrow\">←</div>" ++ "<div class=\"prev\">" ++
              lp ++ "</div>\n") ++ "</nav>\n")) := by
  refine ⟨fun h1 => by simp [htmlForNextPrev, h1], ?_, ?_, ?_⟩
  · intro hn1 h0 hlt dp lp hget hlink
    subst h0
    simp only [htmlForNextPrev, if_neg hn1, hget, hlink,
      if_neg (by simp : ¬((0 : Nat) ≠ 0)), if_pos hlt, Except.map]
  · intro hn1 h0 hlast dn ln hget hlink
    simp only [htmlForNextPrev, if_neg hn1, if_pos h0, hget, hlink,
      if_neg (show ¬(index < days.length - 1) by omega), Except.map]
  · intro hn1 h0 hlt dn dp ln lp hgetn hgetp hlinkn hlinkp
    simp only [htmlForNextPrev, if_neg hn1, if_pos h0, hgetn, hgetp, hlinkn, hlinkp,
      if_pos hlt, Except.map]

/-- Witness for the C9 theorem: a one-day site has no navigation; the most
recent day of a two-day site gets only a "prev" link whose text falls back
to the formatted date. -/
theorem htmlForNextPrev_characterization_witness :
    htmlForNextPrev constDateFmt "fmt" [⟨"2020-01-01", "", ["x"]⟩] 0 = .ok "" ∧
    htmlForNextPrev constDateFmt "fmt"
        [⟨"2020-01-02", "", ["y"]⟩, ⟨"2020-01-01", "", ["x"]⟩] 0 =
      .ok ("<nav class=\"tl-next-prev\">\n" ++ "" ++
        ("  <div class=\"tl-left-arrow\">←</div>" ++ "<div class=\"prev\">" ++
          "<a href=\"../../2020/01/01.html\" title=\"DATE\">DATE</a>" ++ "</div>\n") ++
        "</nav>\n") :=
  ⟨(htmlForNextPrev_characterization constDateFmt "fmt" [⟨"2020-01-01", "", ["x"]⟩] 0).1 rfl,
   (htmlForNextPrev_characterization constDateFmt "fmt"
      [⟨"2020-01-02", "", ["y"]⟩, ⟨"2020-01-01", "", ["x"]⟩] 0).2.1
     (by decide) rfl (by decide) ⟨"2020-01-01", "", ["x"]⟩
     "<a href=\"../../2020/01/01.html\" title=\"DATE\">DATE</a>" rfl rfl⟩

/-! ## C6: the week-flush loop -/

theorem lexLe_antisymm : ∀ a b : List Char, lexLe a b = true → lexLe b a = true → a = b
  | [], [], _, _ => rfl
  | [], _ :: _, _, h2 => by simp [lexLe] at h2
  | _ :: _, [], h1, _ => by simp [lexLe] at h1
  | x :: xs, y :: ys, h1, h2 => by
    simp only [lexLe] at h1 h2
    rcases lt_trichotomy x y with hxy | rfl | hxy
    · rw [if_neg (not_lt_of_gt hxy), if_neg (ne_of_gt hxy)] at h2
      simp at h2
    · simp only [lt_self_iff_false, if_false] at h1 h2
      simp only [eq_self_iff_true, if_true] at h1 h2
      rw [lexLe_antisymm xs ys h1 h2]
    · rw [if_neg (not_lt_of_gt hxy), if_neg (ne_of_gt hxy)] at h1
      simp at h1

theorem exMapM_cons_ok {α β : Type} {f : α → Except TumblelogError β} {a : α}
    {l : List α} {out : List β} (h : exMapM f (a :: l) = .ok out) :
    ∃ b bs, f a = .ok b ∧ exMapM f l = .ok bs ∧ out = b :: bs := by
  simp only [exMapM] at h
  cases hf : f a with
  | error e => rw [hf] at h; cases h
  | ok b =>
    rw [hf] at h
    obtain ⟨bs, hbs, rfl⟩ := except_map_ok h
    exact ⟨b, bs, rfl, hbs, rfl⟩

theorem mergeRun_head_key (p : String × String) : ∀ runs : List (String × String),
    (mergeRun p runs).map Prod.fst = p.1 :: (mergeRun p runs).tail.map Prod.fst ∧
    ((mergeRun p runs).head?).map Prod.fst = some p.1
  | [] => by simp [mergeRun]
  | q :: rs => by
    simp only [mergeRun]
    split <;> simp

theorem mergeRun_merge (k a b : String) : ∀ rs : List (String × String),
    mergeRun (k, a) (mergeRun (k, b) rs) = mergeRun (k, a ++ b) rs
  | [] => by simp [mergeRun, str_append_assoc]
  | q :: rs => by
    by_cases hq : q.1 = k
    · simp [mergeRun, hq, str_append_assoc]
    · simp [mergeRun, hq]

theorem mergeRun_ne {p q : String × String} {rs : List (String × String)}
    (h : q.1 ≠ p.1) : mergeRun p (q :: rs) = p :: q :: rs := by
  simp [mergeRun, h]

theorem mem_runsOf_keys (k : String) : ∀ l : List (String × String),
    (k ∈ (runsOf l).map Prod.fst ↔ k ∈ l.map Prod.fst)
  | [] => by simp [runsOf]
  | p :: rest => by
    have ih := mem_runsOf_keys k rest
    simp only [runsOf, List.map_cons, List.mem_cons]
    cases hr : runsOf rest with
    | nil =>
      rw [hr] at ih
      simp only [mergeRun, List.map_cons, List.map_nil, List.mem_singleton]
      constructor
      · exact fun h => Or.inl h
      · rintro (h | h)
        · exact h
        · exact absurd h (by simpa using ih)
    | cons q rs =>
      rw [hr] at ih
      by_cases hq : q.1 = p.1
      · simp only [mergeRun, if_pos hq, List.map_cons, List.mem_cons]
        simp only [List.map_cons, List.mem_cons] at ih
        constructor
        · rintro (rfl | hk)
          · exact Or.inl rfl
          · exact Or.inr (ih.mp (Or.inr hk))
        · rintro (rfl | hk)
          · exact Or.inl rfl
          · rcases ih.mpr hk with h1 | h1
            · exact Or.inl (h1.trans hq)
            · exact Or.inr h1
      · rw [mergeRun_ne hq]
        simp only [List.map_cons, List.mem_cons] at ih ⊢
        rw [ih]

theorem mergeRun_ne_nil (p : String × String) : ∀ runs : List (String × String),
    mergeRun p runs ≠ []
  | [] => by simp [mergeRun]
  | q :: rs => by
    simp only [mergeRun]
    split <;> simp

theorem runsOf_keys_strict : ∀ l : List (String × String),
    (l.map Prod.fst).Pairwise (fun a b => strLe b a = true) →
    ((runsOf l).map Prod.fst).Pairwise (fun a b => strLe b a = true ∧ a ≠ b)
  | [], _ => by simp [runsOf]
  | p :: rest, h => by
    simp only [List.map_cons, List.pairwise_cons] at h
    have ih := runsOf_keys_strict rest h.2
    simp only [runsOf]
    cases hr : runsOf rest with
    | nil => simp [mergeRun]
    | cons q rs =>
      rw [hr] at ih
      by_cases hq : q.1 = p.1
      · simp only [mergeRun, if_pos hq, List.map_cons, List.pairwise_cons] at ih ⊢
        refine ⟨fun x hx => ?_, ih.2⟩
        have hx1 := ih.1 x hx
        rw [hq] at hx1
        exact hx1
      · rw [mergeRun_ne hq]
        simp only [List.map_cons, List.pairwise_cons] at ih ⊢
        have hqmem : q.1 ∈ rest.map Prod.fst := by
          refine (mem_runsOf_keys q.1 rest).mp ?_
          rw [hr]
          simp
        have hqle : strLe q.1 p.1 = true := h.1 q.1 hqmem
        refine ⟨fun x hx => ?_, ih⟩
        rcases List.mem_cons.mp hx with rfl | hx
        · exact ⟨hqle, fun he => hq he.symm⟩
        · have hxmem : x ∈ rest.map Prod.fst := by
            refine (mem_runsOf_keys x rest).mp ?_
            rw [hr]
            simp [hx]
          refine ⟨h.1 x hxmem, fun he => ?_⟩
          obtain ⟨hxq, hxqne⟩ := ih.1 x hx
          subst he
          exact hq (str_ext (lexLe_antisymm q.1.data p.1.data hqle hxq))

theorem dayWeekLoop_flushes (render : String → String)
    (strftime : String → Nat × Nat × Nat → String) (cfg : Config) (days : List Day)
    (dayArchiveHtml minYear maxYear : String) :
    ∀ (rest : List Day) (index : Nat) (currentYW weekBody : String)
      (yws bodies : List String)
      (r : List (String × String) × List (String × String)),
    exMapM (fun d => getYearWeek d.date) rest = .ok yws →
    exMapM (dayBodyHtml render strftime cfg.dateFormat) rest = .ok bodies →
    dayWeekLoop render strftime cfg days dayArchiveHtml minYear maxYear
      index currentYW weekBody rest = .ok r →
    r.2 = mergeRun (currentYW, weekBody) (runsOf (yws.zip bodies))
  | [], index, cur, wb, yws, bodies, r, hy, hb, hr => by
    simp only [exMapM] at hy hb
    cases hy
    cases hb
    simp only [dayWeekLoop] at hr
    cases hr
    simp [runsOf, mergeRun]
  | day :: rest2, index, cur, wb, yws, bodies, r, hy, hb, hr => by
    obtain ⟨yw, yws2, hyw, hyrest, rfl⟩ := exMapM_cons_ok hy
    obtain ⟨b, bs, hbd, hbrest, rfl⟩ := exMapM_cons_ok hb
    simp only [dayWeekLoop, hbd] at hr
    cases hp : dayPageFor strftime cfg days index day b dayArchiveHtml minYear maxYear with
    | error e =>
      simp only [hp] at hr
      cases hr
    | ok page =>
      simp only [hp, hyw] at hr
      by_cases hcur : yw = cur
      · simp only [if_pos hcur] at hr
        cases hrec : dayWeekLoop render strftime cfg days dayArchiveHtml minYear maxYear
            (index + 1) cur (wb ++ b) rest2 with
        | error e =>
          simp only [hrec] at hr
          cases hr
        | ok r2 =>
          simp only [hrec] at hr
          cases hr
          have ih := dayWeekLoop_flushes render strftime cfg days dayArchiveHtml minYear
            maxYear rest2 (index + 1) cur (wb ++ b) yws2 bs r2 hyrest hbrest hrec
          show r2.2 = mergeRun (cur, wb) (runsOf ((yw :: yws2).zip (b :: bs)))
          subst hcur
          simp only [List.zip_cons_cons, runsOf, mergeRun_merge]
          exact ih
      · simp only [if_neg hcur] at hr
        cases hrec : dayWeekLoop render strftime cfg days dayArchiveHtml minYear maxYear
            (index + 1) yw b rest2 with
        | error e =>
          simp only [hrec] at hr
          cases hr
        | ok r2 =>
          simp only [hrec] at hr
          cases hr
          have ih := dayWeekLoop_flushes render strftime cfg days dayArchiveHtml minYear
            maxYear rest2 (index + 1) yw b yws2 bs r2 hyrest hbrest hrec
          show (cur, wb) :: r2.2 = mergeRun (cur, wb) (runsOf ((yw :: yws2).zip (b :: bs)))
          rw [ih]
          simp only [List.zip_cons_cons, runsOf]
          rw [show List.zipWith Prod.mk yws2 bs = yws2.zip bs from rfl]
          cases hm : mergeRun (yw, b) (runsOf (yws2.zip bs)) with
          | nil => exact absurd hm (mergeRun_ne_nil (yw, b) (runsOf (yws2.zip bs)))
          | cons q rs =>
            have hqk : q.1 = yw := by
              have hh := (mergeRun_head_key (yw, b) (runsOf (yws2.zip bs))).2
              rw [hm] at hh
              simpa using hh
            rw [mergeRun_ne (show q.1 ≠ cur by rw [hqk]; exact hcur)]

/-- **C6**: walking the descending-sorted day sequence once,
`create_day_and_week_pages` flushes exactly the per-week runs: the flushed
`(yearWeek, weekBody)` pairs are the consecutive-equal-key runs of the days'
`(yearWeek, dayBody)` pairs with bodies concatenated in order (one flush per
week-boundary crossing plus the final flush after the loop), and one week
page is rendered per flush; a year-week appears among the flushes iff some
day maps to it, and when the days' year-weeks are (weakly) descending —
which sorted days give — the flushed keys are pairwise distinct, so exactly
one week page is written per distinct YearWeek. -/
theorem createDayAndWeekPages_week_flushes (render : String → String)
    (strftime : String → Nat × Nat × Nat → String) (cfg : Config) (days : List Day)
    (archive : Archive) (minYear maxYear : String) (yws bodies : List String)
    (out : List (String × String) × List (String × String))
    (hy : exMapM (fun d => getYearWeek d.date) days = .ok yws)
    (hb : exMapM (dayBodyHtml render strftime cfg.dateFormat) days = .ok bodies)
    (hout : createDayAndWeekPages render strftime cfg days archive minYear maxYear =
      .ok out) :
    exMapM (fun f => createWeekPage cfg f.1 f.2 archive minYear maxYear)
      (runsOf (yws.zip bodies)) = .ok out.2 ∧
    (∀ k, k ∈ (runsOf (yws.zip bodies)).map Prod.fst ↔ k ∈ yws) ∧
    (yws.Pairwise (fun a b => strLe b a = true) →
      ((runsOf (yws.zip bodies)).map Prod.fst).Nodup) := by
  have hleny := exMapM_ok_length hy
  have hlenb := exMapM_ok_length hb
  have hfst : (yws.zip bodies).map Prod.fst = yws :=
    List.map_fst_zip yws bodies (by omega)
  cases days with
  | nil =>
    simp only [createDayAndWeekPages] at hout
    cases hout
  | cons d0 rest =>
    obtain ⟨yw0, yws2, hyw0, hyrest, rfl⟩ := exMapM_cons_ok hy
    obtain ⟨b0, bs, hb0, hbrest, rfl⟩ := exMapM_cons_ok hb
    simp only [createDayAndWeekPages, hyw0] at hout
    cases hloop : dayWeekLoop render strftime cfg (d0 :: rest)
        (htmlForArchive archive none "../.." cfg.labelFormat) minYear maxYear
        0 yw0 "" (d0 :: rest) with
    | error e =>
      simp only [hloop] at hout
      cases hout
    | ok r =>
      simp only [hloop] at hout
      have hr2 : r.2 = runsOf ((yw0 :: yws2).zip (b0 :: bs)) := by
        have hfl := dayWeekLoop_flushes render strftime cfg (d0 :: rest)
          (htmlForArchive archive none "../.." cfg.labelFormat) minYear maxYear
          (d0 :: rest) 0 yw0 "" (yw0 :: yws2) (b0 :: bs) r
          hy hb hloop
        rw [hfl]
        simp only [List.zip_cons_cons, runsOf, mergeRun_merge, str_empty_append]
      cases hs : exMapM (fun f => createWeekPage cfg f.1 f.2 archive minYear maxYear)
          r.2 with
      | error e =>
        simp only [hs] at hout
        cases hout
      | ok weekPages =>
        simp only [hs] at hout
        cases hout
        refine ⟨?_, ?_, ?_⟩
        · rw [← hr2, hs]
        · intro k
          rw [mem_runsOf_keys k, hfst]
        · intro hsorted
          have hstrict := runsOf_keys_strict ((yw0 :: yws2).zip (b0 :: bs))
            (by rw [hfst]; exact hsorted)
          exact List.Pairwise.imp (fun hab => hab.2) hstrict

/-- Witness for the C6 theorem: two days in distinct ISO weeks yield exactly
two week-page flushes. -/
theorem createDayAndWeekPages_week_flushes_witness :
    (exMapM (fun f => createWeekPage (sampleConfig 14) f.1 f.2 [] "2020" "2020")
      (runsOf ((["2020-02", "2020-01"]).zip
        ["<time class=\"tl-date\" datetime=\"2020-01-07\"><a href=\"../../2020/01/07.html\">DATE</a></time>\n<article>\nx</article>\n",
         "<time class=\"tl-date\" datetime=\"2020-01-01\"><a href=\"../../2020/01/01.html\">DATE</a></time>\n<article>\ny</article>\n"])) =
      .ok ([("archive/2020/01/07.html", "tpl"), ("archive/2020/01/01.html", "tpl")],
        [("archive/2020/week/02.html", "tpl"),
         ("archive/2020/week/01.html", "tpl")]).2 ∧
    (∀ k, k ∈ (runsOf ((["2020-02", "2020-01"]).zip
        ["<time class=\"tl-date\" datetime=\"2020-01-07\"><a href=\"../../2020/01/07.html\">DATE</a></time>\n<article>\nx</article>\n",
         "<time class=\"tl-date\" datetime=\"2020-01-01\"><a href=\"../../2020/01/01.html\">DATE</a></time>\n<article>\ny</article>\n"])).map Prod.fst ↔
      k ∈ ["2020-02", "2020-01"]) ∧
    ((["2020-02", "2020-01"] : List String).Pairwise (fun a b => strLe b a = true) →
      ((runsOf ((["2020-02", "2020-01"]).zip
        ["<time class=\"tl-date\" datetime=\"2020-01-07\"><a href=\"../../2020/01/07.html\">DATE</a></time>\n<article>\nx</article>\n",
         "<time class=\"tl-date\" datetime=\"2020-01-01\"><a href=\"../../2020/01/01.html\">DATE</a></time>\n<article>\ny</article>\n"])).map Prod.fst).Nodup)) :=
  createDayAndWeekPages_week_flushes idRender constDateFmt (sampleConfig 14)
    [⟨"2020-01-07", "", ["x"]⟩, ⟨"2020-01-01", "", ["y"]⟩] [] "2020" "2020"
    ["2020-02", "2020-01"]
    ["<time class=\"tl-date\" datetime=\"2020-01-07\"><a href=\"../../2020/01/07.html\">DATE</a></time>\n<article>\nx</article>\n",
     "<time class=\"tl-date\" datetime=\"2020-01-01\"><a href=\"../../2020/01/01.html\">DATE</a></time>\n<article>\ny</article>\n"]
    ([("archive/2020/01/07.html", "tpl"), ("archive/2020/01/01.html", "tpl")],
      [("archive/2020/week/02.html", "tpl"), ("archive/2020/week/01.html", "tpl")])
    rfl rfl rfl

/-! ## C3: the archive invariants -/

theorem strLe_append_left (p a b : String) : strLe (p ++ a) (p ++ b) = strLe a b := by
  simp only [strLe, String.data_append]
  exact lexLe_append_left p.data a.data b.data

theorem getYearWeek_ok {date yw : String} (h : getYearWeek date = .ok yw) :
    ∃ p, parseDate date = .ok p ∧
      yw = joinYearWeek (isoCalendar p.1 p.2.1 p.2.2).1 (isoCalendar p.1 p.2.1 p.2.2).2 :=
  except_map_ok h

theorem insertWeek_keys (y w : String) : ∀ ar : Archive,
    (insertWeek y w ar).map Prod.fst =
      if y ∈ ar.map Prod.fst then ar.map Prod.fst else ar.map Prod.fst ++ [y]
  | [] => by simp [insertWeek]
  | (y1, ws) :: rest => by
    simp only [insertWeek]
    by_cases hy : y1 = y
    · subst hy
      simp
    · rw [if_neg hy]
      simp only [List.map_cons, insertWeek_keys y w rest]
      by_cases hmem : y ∈ rest.map Prod.fst
      · rw [if_pos hmem, if_pos (by simp [hmem])]
      · rw [if_neg hmem, if_neg (by
          simp only [List.mem_cons]
          rintro (rfl | hc)
          · exact hy rfl
          · exact hmem hc)]
        simp

theorem insertWeek_pairs (y w : String) : ∀ ar : Archive,
    List.Perm (archivePairs (insertWeek y w ar)) ((y ++ "-" ++ w) :: archivePairs ar)
  | [] => by
    simp [insertWeek, archivePairs]
  | (y1, ws) :: rest => by
    simp only [insertWeek]
    by_cases hy : y1 = y
    · subst hy
      rw [if_pos rfl]
      have he : archivePairs ((y1, w :: ws) :: rest) =
          (y1 ++ "-" ++ w) :: archivePairs ((y1, ws) :: rest) := by
        simp [archivePairs]
      rw [he]
    · rw [if_neg hy]
      have step1 : archivePairs ((y1, ws) :: insertWeek y w rest) =
          ws.map (fun w2 => y1 ++ "-" ++ w2) ++ archivePairs (insertWeek y w rest) := by
        simp [archivePairs]
      have step3 : archivePairs ((y1, ws) :: rest) =
          ws.map (fun w2 => y1 ++ "-" ++ w2) ++ archivePairs rest := by
        simp [archivePairs]
      rw [step1, step3]
      exact ((insertWeek_pairs y w rest).append_left _).trans List.perm_middle

theorem insertWeek_buckets (y w : String) : ∀ ar : Archive, ∀ p ∈ insertWeek y w ar,
    p ∈ ar ∨ (∃ ws, (y, ws) ∈ ar ∧ p = (y, w :: ws)) ∨ p = (y, [w])
  | [], p, hp => by
    simp only [insertWeek, List.mem_singleton] at hp
    exact Or.inr (Or.inr hp)
  | (y1, ws) :: rest, p, hp => by
    simp only [insertWeek] at hp
    by_cases hy : y1 = y
    · subst hy
      rw [if_pos rfl] at hp
      rcases List.mem_cons.mp hp with rfl | hp
      · exact Or.inr (Or.inl ⟨ws, by simp⟩)
      · exact Or.inl (List.mem_cons_of_mem _ hp)
    · rw [if_neg hy] at hp
      rcases List.mem_cons.mp hp with rfl | hp
      · exact Or.inl (List.mem_cons_self _ _)
      · rcases insertWeek_buckets y w rest p hp with h | h | h
        · exact Or.inl (List.mem_cons_of_mem _ h)
        · obtain ⟨ws2, hw2, rfl⟩ := h
          exact Or.inr (Or.inl ⟨ws2, List.mem_cons_of_mem _ hw2, rfl⟩)
        · exact Or.inr (Or.inr h)

theorem archiveLoop_inv : ∀ (days : List Day) (yws seen : List String) (ar out : Archive),
    exMapM (fun d => getYearWeek d.date) days = .ok yws →
    (∀ s ∈ seen, ∀ w2 ∈ yws, strLe w2 s = true) →
    yws.Pairwise (fun a b => strLe b a = true) →
    seen.Nodup →
    ArchInv seen ar →
    archiveLoop seen ar days = .ok out →
    ∃ seenF, seenF.Nodup ∧ ArchInv seenF out ∧ (∀ s, s ∈ seenF ↔ s ∈ seen ∨ s ∈ yws)
  | [], yws, seen, ar, out, hy, _, _, hnd, hinv, hloop => by
    simp only [exMapM] at hy
    cases hy
    simp only [archiveLoop] at hloop
    cases hloop
    exact ⟨seen, hnd, hinv, fun s => by simp⟩
  | day :: rest, yws, seen, ar, out, hy, hbound, hdescAll, hnd, hinv, hloop => by
    obtain ⟨yw, yws2, hyw, hyrest, rfl⟩ := exMapM_cons_ok hy
    obtain ⟨p, hp, hywv⟩ := getYearWeek_ok hyw
    simp only [archiveLoop, hp] at hloop
    rw [← hywv] at hloop
    have hdesc := List.pairwise_cons.mp hdescAll
    by_cases hseen : yw ∈ seen
    · rw [if_pos hseen] at hloop
      have hb2 : ∀ s ∈ seen, ∀ w2 ∈ yws2, strLe w2 s = true :=
        fun s hs w2 hw2 => hbound s hs w2 (List.mem_cons_of_mem _ hw2)
      obtain ⟨seenF, h1, h2, h3⟩ :=
        archiveLoop_inv rest yws2 seen ar out hyrest hb2 hdesc.2 hnd hinv hloop
      refine ⟨seenF, h1, h2, fun s => ?_⟩
      rw [h3 s]
      constructor
      · rintro (hs | hs)
        · exact Or.inl hs
        · exact Or.inr (List.mem_cons_of_mem _ hs)
      · rintro (hs | hs)
        · exact Or.inl hs
        · rcases List.mem_cons.mp hs with rfl | hs
          · exact Or.inl hseen
          · exact Or.inr hs
    · rw [if_neg hseen] at hloop
      simp only [joinYearWeek] at hywv
      obtain ⟨hkeys, hperm, hasc, hlink⟩ := hinv
      have hnd2 : (yw :: seen).Nodup := by simp [hnd, hseen]
      have hb2 : ∀ s ∈ yw :: seen, ∀ w2 ∈ yws2, strLe w2 s = true := by
        intro s hs w2 hw2
        rcases List.mem_cons.mp hs with rfl | hs
        · exact hdesc.1 w2 hw2
        · exact hbound s hs w2 (List.mem_cons_of_mem _ hw2)
      have hinv2 : ArchInv (yw :: seen)
          (insertWeek (padZero 4 (isoCalendar p.1 p.2.1 p.2.2).1)
            (padZero 2 (isoCalendar p.1 p.2.1 p.2.2).2) ar) := by
        refine ⟨?_, ?_, ?_, ?_⟩
        · rw [insertWeek_keys]
          split
          · exact hkeys
          · rename_i hnotmem
            rw [List.nodup_append]
            exact ⟨hkeys, by simp, by simpa [List.disjoint_right] using hnotmem⟩
        · refine (insertWeek_pairs _ _ ar).trans ?_
          rw [← hywv]
          exact hperm.cons yw
        · intro q hq
          rcases insertWeek_buckets _ _ ar q hq with h | h | h
          · exact hasc q h
          · obtain ⟨ws, hws, rfl⟩ := h
            rw [List.pairwise_cons]
            refine ⟨fun w2 hw2 => ?_, hasc (_, ws) hws⟩
            have hlk := hlink (_, ws) hws w2 hw2
            have hb := hbound _ hlk yw (List.mem_cons_self _ _)
            rw [hywv] at hb
            rwa [strLe_append_left] at hb
          · rw [h]
            simp
        · intro q hq w2 hw2
          rcases insertWeek_buckets _ _ ar q hq with h | h | h
          · exact List.mem_cons_of_mem _ (hlink q h w2 hw2)
          · obtain ⟨ws, hws, rfl⟩ := h
            rcases List.mem_cons.mp hw2 with rfl | hw2
            · rw [← hywv]
              exact List.mem_cons_self _ _
            · exact List.mem_cons_of_mem _ (hlink (_, ws) hws w2 hw2)
          · rw [h] at hw2 ⊢
            rcases List.mem_singleton.mp hw2 with rfl
            rw [← hywv]
            exact List.mem_cons_self _ _
      obtain ⟨seenF, h1, h2, h3⟩ :=
        archiveLoop_inv rest yws2 (yw :: seen) _ out hyrest hb2 hdesc.2 hnd2 hinv2 hloop
      refine ⟨seenF, h1, h2, fun s => ?_⟩
      rw [h3 s]
      simp only [List.mem_cons]
      tauto

/-- **C3**: provided the days' year-weeks are (weakly) descending — which
holds for the date-sorted day list because the ISO week key is monotone in
the date — `create_archive` builds an archive whose year keys are pairwise
distinct, whose reconstructed `"YYYY-WW"` keys contain every year-week some
day maps to exactly once (no duplicates, membership iff some day maps
there), whose per-year buckets are ascending in (two-digit, zero-padded)
week order, and whose display iteration (`html_for_archive`) visits years in
descending order. -/
theorem createArchive_invariants (days : List Day) (yws : List String) (archive : Archive)
    (hy : exMapM (fun d => getYearWeek d.date) days = .ok yws)
    (hdesc : yws.Pairwise (fun a b => strLe b a = true))
    (ha : createArchive days = .ok archive) :
    (archive.map Prod.fst).Nodup ∧
    (archivePairs archive).Nodup ∧
    (∀ s, s ∈ archivePairs archive ↔ s ∈ yws) ∧
    (∀ p ∈ archive, p.2.Pairwise (fun a b => strLe a b = true)) ∧
    (archiveDisplayYears archive).Pairwise (fun a b => strLe b a = true) := by
  have hinv0 : ArchInv [] [] := by
    refine ⟨by simp, by simp [archivePairs], by simp, by simp⟩
  obtain ⟨seenF, h1, h2, h3⟩ :=
    archiveLoop_inv days yws [] [] archive hy (by simp) hdesc (by simp) hinv0 ha
  obtain ⟨hkeys, hperm, hasc, _⟩ := h2
  refine ⟨hkeys, hperm.nodup_iff.mpr h1, fun s => ?_, hasc, sortStrDesc_sorted _⟩
  rw [hperm.mem_iff, h3 s]
  simp

/-- Witness for the C3 theorem: three days spanning ISO weeks 1 and 2 of
2020 give the single year bucket `["01", "02"]`, ascending, with each week
exactly once. -/
theorem createArchive_invariants_witness :
    ((([("2020", ["01", "02"])] : Archive).map Prod.fst).Nodup ∧
    (archivePairs [("2020", ["01", "02"])]).Nodup ∧
    (∀ s, s ∈ archivePairs [("2020", ["01", "02"])] ↔
      s ∈ ["2020-02", "2020-02", "2020-01"]) ∧
    (∀ p ∈ ([("2020", ["01", "02"])] : Archive),
      p.2.Pairwise (fun a b => strLe a b = true)) ∧
    (archiveDisplayYears [("2020", ["01", "02"])]).Pairwise
      (fun a b => strLe b a = true)) :=
  createArchive_invariants
    [⟨"2020-01-08", "", ["a"]⟩, ⟨"2020-01-07", "", ["b"]⟩, ⟨"2020-01-01", "", ["c"]⟩]
    ["2020-02", "2020-02", "2020-01"] [("2020", ["01", "02"])]
    rfl (by decide) rfl

/-! ## C7: the template substitution protocol -/

theorem replaceAllGo_fuel (pat rep : List Char) : ∀ (s : List Char) (f1 f2 : Nat),
    s.length ≤ f1 → s.length ≤ f2 →
    replaceAllGo pat rep f1 s = replaceAllGo pat rep f2 s
  | [], f1, f2, _, _ => by cases f1 <;> cases f2 <;> rfl
  | c :: cs, f1, f2, h1, h2 => by
    cases f1 with
    | zero => simp at h1
    | succ g1 =>
      cases f2 with
      | zero => simp at h2
      | succ g2 =>
        simp only [List.length_cons] at h1 h2
        simp only [replaceAllGo]
        by_cases hm : pat ≠ [] ∧ pat.isPrefixOf (c :: cs)
        · rw [if_pos hm, if_pos hm]
          have hp : 1 ≤ pat.length := List.length_pos.mpr hm.1
          have hd1 : ((c :: cs).drop pat.length).length ≤ g1 := by
            simp only [List.length_drop, List.length_cons]
            omega
          have hd2 : ((c :: cs).drop pat.length).length ≤ g2 := by
            simp only [List.length_drop, List.length_cons]
            omega
          rw [replaceAllGo_fuel pat rep ((c :: cs).drop pat.length) g1 g2 hd1 hd2]
        · rw [if_neg hm, if_neg hm]
          rw [replaceAllGo_fuel pat rep cs g1 g2 (by omega) (by omega)]
termination_by s _ _ => s.length
decreasing_by
  · simp only [List.length_drop, List.length_cons]
    omega
  · simp

theorem replaceAll_nil (pat rep : List Char) : replaceAll pat rep [] = [] := rfl

theorem replaceAll_pos {pat : List Char} (rep : List Char) {c : Char} {cs : List Char}
    (h : pat ≠ [] ∧ pat.isPrefixOf (c :: cs)) :
    replaceAll pat rep (c :: cs) =
      rep ++ replaceAll pat rep ((c :: cs).drop pat.length) := by
  show replaceAllGo pat rep (c :: cs).length (c :: cs) = _
  simp only [List.length_cons, replaceAllGo, if_pos h]
  congr 1
  refine replaceAllGo_fuel pat rep _ cs.length _ ?_ (le_refl _)
  have hp : 1 ≤ pat.length := List.length_pos.mpr h.1
  simp only [List.length_drop, List.length_cons]
  omega

theorem replaceAll_neg {pat : List Char} (rep : List Char) {c : Char} {cs : List Char}
    (h : ¬(pat ≠ [] ∧ pat.isPrefixOf (c :: cs))) :
    replaceAll pat rep (c :: cs) = c :: replaceAll pat rep cs := by
  show replaceAllGo pat rep (c :: cs).length (c :: cs) = _
  simp only [List.length_cons, replaceAllGo, if_neg h]
  rfl

theorem nil_isPrefixOf (l : List Char) : List.isPrefixOf [] l = true := by
  cases l <;> rfl

theorem isPrefixOf_append_self : ∀ l s : List Char, l.isPrefixOf (l ++ s) = true
  | [], s => nil_isPrefixOf ([] ++ s)
  | c :: cs, s => by
    simp only [List.cons_append, List.isPrefixOf, beq_self_eq_true, Bool.true_and]
    exact isPrefixOf_append_self cs s

theorem isPrefixOf_append_cases : ∀ l a s : List Char,
    l.isPrefixOf (a ++ s) = true → l.isPrefixOf a = true ∨ a.isPrefixOf l = true
  | [], a, _, _ => Or.inl (nil_isPrefixOf a)
  | c :: cs, [], _, _ => Or.inr (nil_isPrefixOf (c :: cs))
  | c :: cs, b :: bs, s, h => by
    simp only [List.cons_append, List.isPrefixOf, Bool.and_eq_true] at h ⊢
    rcases isPrefixOf_append_cases cs bs s h.2 with h2 | h2
    · exact Or.inl ⟨h.1, h2⟩
    · refine Or.inr ⟨?_, h2⟩
      have := h.1
      rw [beq_iff_eq] at this ⊢
      exact this.symm

theorem replaceAll_lbFree_append {pat : List Char} (rep : List Char)
    (hpat : pat.head? = some '[') :
    ∀ a s : List Char, (∀ c ∈ a, c ≠ '[') →
    replaceAll pat rep (a ++ s) = a ++ replaceAll pat rep s
  | [], s, _ => by simp
  | c :: a2, s, ha => by
    have hc : c ≠ '[' := ha c (by simp)
    have hnp : ¬(pat ≠ [] ∧ pat.isPrefixOf (c :: (a2 ++ s))) := by
      rintro ⟨hne, hpre⟩
      cases pat with
      | nil => exact hne rfl
      | cons p0 ps =>
        injection hpat with hp0
        simp only [List.isPrefixOf, Bool.and_eq_true, beq_iff_eq] at hpre
        exact hc (by rw [← hpre.1, hp0])
    rw [List.cons_append, replaceAll_neg rep hnp,
      replaceAll_lbFree_append rep hpat a2 s (fun x hx => ha x (List.mem_cons_of_mem _ hx))]
    rfl

theorem replaceAll_tok (pat rep s : List Char) (hne : pat ≠ []) :
    replaceAll pat rep (pat ++ s) = rep ++ replaceAll pat rep s := by
  cases pat with
  | nil => exact absurd rfl hne
  | cons p0 ps =>
    rw [List.cons_append,
      replaceAll_pos rep ⟨by simp, by
        rw [← List.cons_append]
        exact isPrefixOf_append_self (p0 :: ps) s⟩]
    rw [← List.cons_append, List.drop_left]

theorem tok_shape : ∀ t : TemplatePiece, isTok t = true →
    ∃ tail, pieceChars t = '[' :: tail ∧ ∀ c ∈ tail, c ≠ '['
  | .lit s, h => by simp [isTok] at h
  | .titleTok, _ => ⟨_, rfl, by decide⟩
  | .yearRangeTok, _ => ⟨_, rfl, by decide⟩
  | .labelTok, _ => ⟨_, rfl, by decide⟩
  | .cssTok, _ => ⟨_, rfl, by decide⟩
  | .nameTok, _ => ⟨_, rfl, by decide⟩
  | .authorTok, _ => ⟨_, rfl, by decide⟩
  | .versionTok, _ => ⟨_, rfl, by decide⟩
  | .feedUrlTok, _ => ⟨_, rfl, by decide⟩
  | .bodyTok, _ => ⟨_, rfl, by decide⟩
  | .archiveTok, _ => ⟨_, rfl, by decide⟩

theorem tok_isPrefixOf_false : ∀ t1 t2 : TemplatePiece, isTok t1 = true → isTok t2 = true →
    t1 ≠ t2 → (pieceChars t1).isPrefixOf (pieceChars t2) = false := by
  intro t1 t2 h1 h2 hne
  cases t1 <;> cases t2 <;> simp [isTok] at h1 h2 <;> first
    | exact absurd rfl hne
    | decide

theorem tok_head (t : TemplatePiece) (htok : isTok t = true) :
    (pieceChars t).head? = some '[' := by
  obtain ⟨tail, hshape, _⟩ := tok_shape t htok
  rw [hshape]
  rfl

theorem tok_ne_nil (t : TemplatePiece) (htok : isTok t = true) : pieceChars t ≠ [] := by
  obtain ⟨tail, hshape, _⟩ := tok_shape t htok
  rw [hshape]
  simp

theorem replaceAll_skip_tok {pat : List Char} (rep : List Char) {t : TemplatePiece}
    (hpat0 : pat.head? = some '[') (htok : isTok t = true)
    (hnp : pat.isPrefixOf (pieceChars t) = false)
    (hnp2 : (pieceChars t).isPrefixOf pat = false) (s : List Char) :
    replaceAll pat rep (pieceChars t ++ s) = pieceChars t ++ replaceAll pat rep s := by
  obtain ⟨tail, hshape, htail⟩ := tok_shape t htok
  rw [hshape, List.cons_append]
  have hnomatch : ¬(pat ≠ [] ∧ pat.isPrefixOf ('[' :: (tail ++ s))) := by
    rintro ⟨hne, hpre⟩
    rw [← List.cons_append, ← hshape] at hpre
    rcases isPrefixOf_append_cases pat (pieceChars t) s hpre with h | h
    · rw [hnp] at h
      cases h
    · rw [hnp2] at h
      cases h
  rw [replaceAll_neg rep hnomatch, replaceAll_lbFree_append rep hpat0 tail s htail]
  rfl

theorem escape_lbFree_aux : ∀ l : List Char, (∀ c ∈ l, c ≠ '[') →
    ∀ c2 ∈ (String.join (l.map escapeChar)).data, c2 ≠ '['
  | [], _, c2, hc2 => by simp [String.join] at hc2
  | c :: l, h, c2, hc2 => by
    rw [List.map_cons, strJoin_cons, String.data_append] at hc2
    rcases List.mem_append.mp hc2 with hc2 | hc2
    · have hc : c ≠ '[' := h c (by simp)
      unfold escapeChar at hc2
      split_ifs at hc2 <;> first
        | (intro he
           rw [he] at hc2
           exact absurd hc2 (by decide))
        | (simp only [String.data] at hc2
           rcases List.mem_singleton.mp hc2 with rfl
           exact hc)
    · exact escape_lbFree_aux l (fun x hx => h x (List.mem_cons_of_mem _ hx)) c2 hc2

theorem escape_lbFree {v : String} (hv : ∀ c ∈ v.data, c ≠ '[') :
    ∀ c2 ∈ (escape v).data, c2 ≠ '[' := by
  intro c2 hc2
  exact escape_lbFree_aux v.data hv c2 hc2

theorem replaceAll_pass (target : TemplatePiece) (rep : String)
    (htarget : isTok target = true) :
    ∀ items : List TemplatePiece,
    (∀ s2, TemplatePiece.lit s2 ∈ items → ∀ c ∈ s2.data, c ≠ '[') →
    replaceAll (pieceChars target) rep.data (renderPieces items) =
      renderPieces (substPieces target rep items)
  | [], _ => by simp [renderPieces, substPieces, replaceAll_nil]
  | q :: rest, hlits => by
    have ih := replaceAll_pass target rep htarget rest
      (fun s2 hs2 => hlits s2 (List.mem_cons_of_mem _ hs2))
    simp only [renderPieces, substPieces, List.map_cons]
    by_cases hq : q = target
    · subst hq
      rw [replaceAll_tok _ _ _ (tok_ne_nil q htarget), ih]
      simp [renderPieces, pieceChars, substPieces]
    · rw [if_neg hq]
      cases hqt : isTok q with
      | false =>
        obtain ⟨s2, rfl⟩ : ∃ s2, q = .lit s2 := by
          cases q <;> simp [isTok] at hqt ⊢
        rw [show pieceChars (TemplatePiece.lit s2) = s2.data from rfl,
          replaceAll_lbFree_append rep.data (tok_head target htarget) s2.data _
            (hlits s2 (by simp)), ih]
        rfl
      | true =>
        rw [replaceAll_skip_tok rep.data (tok_head target htarget) hqt
          (tok_isPrefixOf_false target q htarget hqt (fun he => hq he.symm))
          (tok_isPrefixOf_false q target hqt htarget hq), ih]
        rfl

theorem replaceFirst_lbFree_append {pat : List Char} (rep : List Char)
    (hpat : pat.head? = some '[') :
    ∀ a s : List Char, (∀ c ∈ a, c ≠ '[') →
    replaceFirst pat rep (a ++ s) = a ++ replaceFirst pat rep s
  | [], s, _ => by simp
  | c :: a2, s, ha => by
    have hc : c ≠ '[' := ha c (by simp)
    have hnp : ¬(pat ≠ [] ∧ pat.isPrefixOf (c :: (a2 ++ s))) := by
      rintro ⟨hne, hpre⟩
      cases pat with
      | nil => exact hne rfl
      | cons p0 ps =>
        injection hpat with hp0
        simp only [List.isPrefixOf, Bool.and_eq_true, beq_iff_eq] at hpre
        exact hc (by rw [← hpre.1, hp0])
    rw [List.cons_append]
    simp only [replaceFirst]
    rw [if_neg hnp,
      replaceFirst_lbFree_append rep hpat a2 s (fun x hx => ha x (List.mem_cons_of_mem _ hx))]
    rfl

theorem replaceFirst_tok (pat rep s : List Char) (hne : pat ≠ []) :
    replaceFirst pat rep (pat ++ s) = rep ++ s := by
  cases pat with
  | nil => exact absurd rfl hne
  | cons p0 ps =>
    rw [List.cons_append]
    simp only [replaceFirst]
    rw [if_pos ⟨by simp, by
      rw [← List.cons_append]
      exact isPrefixOf_append_self (p0 :: ps) s⟩]
    rw [← List.cons_append, List.drop_left]

theorem replaceFirst_skip_tok {pat : List Char} (rep : List Char) {t : TemplatePiece}
    (hpat0 : pat.head? = some '[') (htok : isTok t = true)
    (hnp : pat.isPrefixOf (pieceChars t) = false)
    (hnp2 : (pieceChars t).isPrefixOf pat = false) (s : List Char) :
    replaceFirst pat rep (pieceChars t ++ s) = pieceChars t ++ replaceFirst pat rep s := by
  obtain ⟨tail, hshape, htail⟩ := tok_shape t htok
  rw [hshape, List.cons_append]
  have hnomatch : ¬(pat ≠ [] ∧ pat.isPrefixOf ('[' :: (tail ++ s))) := by
    rintro ⟨hne, hpre⟩
    rw [← List.cons_append, ← hshape] at hpre
    rcases isPrefixOf_append_cases pat (pieceChars t) s hpre with h | h
    · rw [hnp] at h
      cases h
    · rw [hnp2] at h
      cases h
  simp only [replaceFirst]
  rw [if_neg hnomatch, replaceFirst_lbFree_append rep hpat0 tail s htail]
  rfl

theorem substPieces_of_not_mem {target : TemplatePiece} (rep : String) :
    ∀ items : List TemplatePiece, target ∉ items → substPieces target rep items = items
  | [], _ => rfl
  | q :: rest, h => by
    have hq : q ≠ target := fun he => h (he ▸ List.mem_cons_self q rest)
    simp only [substPieces, List.map_cons, if_neg hq]
    rw [show List.map _ rest = substPieces target rep rest from rfl,
      substPieces_of_not_mem rep rest (fun hm => h (List.mem_cons_of_mem _ hm))]

theorem replaceFirst_pass (target : TemplatePiece) (rep : String)
    (htarget : isTok target = true) :
    ∀ items : List TemplatePiece,
    (∀ s2, TemplatePiece.lit s2 ∈ items → ∀ c ∈ s2.data, c ≠ '[') →
    items.count target = 1 →
    replaceFirst (pieceChars target) rep.data (renderPieces items) =
      renderPieces (substPieces target rep items)
  | [], _, hcount => by simp at hcount
  | q :: rest, hlits, hcount => by
    simp only [renderPieces, substPieces, List.map_cons]
    by_cases hq : q = target
    · subst hq
      have hrest : q ∉ rest := by
        rw [List.count_cons_self] at hcount
        exact (List.count_eq_zero).mp (by omega)
      rw [replaceFirst_tok _ _ _ (tok_ne_nil q htarget), if_pos rfl,
        show List.map _ rest = substPieces q rep rest from rfl,
        substPieces_of_not_mem rep rest hrest]
      rfl
    · have hcount2 : rest.count target = 1 := by
        rw [List.count_cons_of_ne (fun he => hq he.symm)] at hcount
        exact hcount
      have ih := replaceFirst_pass target rep htarget rest
        (fun s2 hs2 => hlits s2 (List.mem_cons_of_mem _ hs2)) hcount2
      rw [if_neg hq,
        show List.map _ rest = substPieces target rep rest from rfl]
      cases hqt : isTok q with
      | false =>
        obtain ⟨s2, rfl⟩ : ∃ s2, q = .lit s2 := by
          cases q <;> simp [isTok] at hqt ⊢
        rw [show pieceChars (TemplatePiece.lit s2) = s2.data from rfl,
          replaceFirst_lbFree_append rep.data (tok_head target htarget) s2.data _
            (hlits s2 (by simp)), ih]
      | true =>
        rw [replaceFirst_skip_tok rep.data (tok_head target htarget) hqt
          (tok_isPrefixOf_false target q htarget hqt (fun he => hq he.symm))
          (tok_isPrefixOf_false q target hqt htarget hq), ih]

theorem substPieces_lits {target : TemplatePiece} {rep : String} {items : List TemplatePiece}
    {s2 : String} (h : TemplatePiece.lit s2 ∈ substPieces target rep items) :
    s2 = rep ∨ TemplatePiece.lit s2 ∈ items := by
  obtain ⟨q, hq, he⟩ := List.mem_map.mp h
  by_cases hqt : q = target
  · rw [if_pos hqt] at he
    injection he with he2
    exact Or.inl he2.symm
  · rw [if_neg hqt] at he
    exact Or.inr (he ▸ hq)

theorem substPieces_count {target other : TemplatePiece} (rep : String)
    (h1 : other ≠ target) (h2 : ∀ s3, other ≠ TemplatePiece.lit s3) :
    ∀ items : List TemplatePiece,
    (substPieces target rep items).count other = items.count other
  | [] => rfl
  | q :: rest => by
    simp only [substPieces, List.map_cons]
    rw [show List.map _ rest = substPieces target rep rest from rfl]
    by_cases hq : q = target
    · rw [if_pos hq, List.count_cons_of_ne (h2 rep),
        List.count_cons_of_ne (fun he => h1 (he.trans hq)),
        substPieces_count rep h1 h2 rest]
    · rw [if_neg hq, List.count_cons, List.count_cons, substPieces_count rep h1 h2 rest]

theorem substPieces_chain (cfg : Config)
    (path title bodyHtml archiveHtml label minYear : String) :
    ∀ items : List TemplatePiece,
    substPieces .archiveTok (archiveHtml) (substPieces .bodyTok (bodyHtml) (substPieces .feedUrlTok (escape cfg.feedUrl) (substPieces .versionTok (escape pyVERSION) (substPieces .authorTok (escape cfg.author) (substPieces .nameTok (escape cfg.name) (substPieces .cssTok (escape (cssFor path cfg.css)) (substPieces .labelTok (escape label) (substPieces .yearRangeTok (escape minYear) (substPieces .titleTok (escape title) (items)))))))))) =
      items.map (fun q =>
        .lit (intendedValue cfg path title bodyHtml archiveHtml label minYear q))
  | [] => rfl
  | q :: items => by
    have ih := substPieces_chain cfg path title bodyHtml archiveHtml label minYear items
    simp only [substPieces, List.map_cons] at ih ⊢
    rw [ih]
    cases q <;> simp [intendedValue]

theorem expandTemplateGo_bsFree : ∀ l : List Char, (∀ c ∈ l, c ≠ '\\') →
    expandTemplateGo l.length l = .ok l
  | [], _ => rfl
  | c :: rest, h => by
    have hc : c ≠ '\\' := h c (by simp)
    simp only [List.length_cons, expandTemplateGo]
    rw [if_neg hc, expandTemplateGo_bsFree rest (fun x hx => h x (List.mem_cons_of_mem _ hx))]
    rfl

theorem expandTemplate_bsFree (l : List Char) (h : ∀ c ∈ l, c ≠ '\\') :
    expandTemplate l = .ok l :=
  expandTemplateGo_bsFree l h

theorem subStr_bsFree (pat : List Char) (rep : String) (s : List Char)
    (h : ∀ c ∈ rep.data, c ≠ '\\') :
    subStr pat rep s = .ok (replaceAll pat rep.data s) := by
  simp only [subStr, expandTemplate_bsFree rep.data h]

theorem escape_bsFree_aux : ∀ l : List Char, (∀ c ∈ l, c ≠ '\\') →
    ∀ c2 ∈ (String.join (l.map escapeChar)).data, c2 ≠ '\\'
  | [], _, c2, hc2 => by simp [String.join] at hc2
  | c :: l, h, c2, hc2 => by
    rw [List.map_cons, strJoin_cons, String.data_append] at hc2
    rcases List.mem_append.mp hc2 with hc2 | hc2
    · have hc : c ≠ '\\' := h c (by simp)
      unfold escapeChar at hc2
      split_ifs at hc2 <;> first
        | (intro he
           rw [he] at hc2
           exact absurd hc2 (by decide))
        | (simp only [String.data] at hc2
           rcases List.mem_singleton.mp hc2 with rfl
           exact hc)
    · exact escape_bsFree_aux l (fun x hx => h x (List.mem_cons_of_mem _ hx)) c2 hc2

theorem escape_bsFree {v : String} (hv : ∀ c ∈ v.data, c ≠ '\\') :
    ∀ c2 ∈ (escape v).data, c2 ≠ '\\' := by
  intro c2 hc2
  exact escape_bsFree_aux v.data hv c2 hc2

/-- **C7 (amended)**: the substitution protocol of `create_page`.
Presenting the template as literal segments and placeholder tokens
(segments and substituted values free of the bracket `[` that opens a
token, the string-substituted values also free of the backslash that
`re.sub` replacement templates would process, one body slot, the years
equal so the year range is defined), the page written is exactly the
itemwise substitution: every occurrence of each scalar placeholder
(title, year-range, label, css, name, author, version, feed-url) becomes
its HTML-escaped value, while the body and archive placeholders receive
their pre-rendered HTML verbatim, unescaped, substituted after all the
escaped scalar passes so their content is never double-escaped.  The
body's lambda replacement needs no backslash hypothesis — it alone is
verbatim unconditionally. -/
theorem createPage_substitution (cfg : Config)
    (path title bodyHtml archiveHtml label minYear maxYear : String)
    (items : List TemplatePiece)
    (htmpl : cfg.template.data = renderPieces items)
    (hlits : ∀ s2, TemplatePiece.lit s2 ∈ items → ∀ c ∈ s2.data, c ≠ '[')
    (hbody1 : items.count TemplatePiece.bodyTok = 1)
    (htitle : ∀ c ∈ title.data, c ≠ '[')
    (hyr : ∀ c ∈ minYear.data, c ≠ '[')
    (hlabel : ∀ c ∈ label.data, c ≠ '[')
    (hcss : ∀ c ∈ (cssFor path cfg.css).data, c ≠ '[')
    (hname : ∀ c ∈ cfg.name.data, c ≠ '[')
    (hauthor : ∀ c ∈ cfg.author.data, c ≠ '[')
    (hfeed : ∀ c ∈ cfg.feedUrl.data, c ≠ '[')
    (hbodyf : ∀ c ∈ bodyHtml.data, c ≠ '[')
    (hbstitle : ∀ c ∈ title.data, c ≠ '\\')
    (hbsyr : ∀ c ∈ minYear.data, c ≠ '\\')
    (hbslabel : ∀ c ∈ label.data, c ≠ '\\')
    (hbscss : ∀ c ∈ (cssFor path cfg.css).data, c ≠ '\\')
    (hbsname : ∀ c ∈ cfg.name.data, c ≠ '\\')
    (hbsauthor : ∀ c ∈ cfg.author.data, c ≠ '\\')
    (hbsfeed : ∀ c ∈ cfg.feedUrl.data, c ≠ '\\')
    (hbsarch : ∀ c ∈ archiveHtml.data, c ≠ '\\')
    (hyy : minYear = maxYear) :
    createPage cfg path title bodyHtml archiveHtml label minYear maxYear =
      .ok (path, String.mk (substitutedTemplate cfg path title bodyHtml archiveHtml
        label minYear items)) := by
  have hyro : yearRangeOf minYear maxYear = .ok minYear := by
    unfold yearRangeOf
    rw [if_pos hyy]
  have hlstep : ∀ (t : TemplatePiece) (rep : String) (l : List TemplatePiece),
      (∀ c ∈ rep.data, c ≠ '[') →
      (∀ s2, TemplatePiece.lit s2 ∈ l → ∀ c ∈ s2.data, c ≠ '[') →
      ∀ s2, TemplatePiece.lit s2 ∈ substPieces t rep l → ∀ c ∈ s2.data, c ≠ '[' := by
    intro t rep l hrep hl s2 hs2
    rcases substPieces_lits hs2 with rfl | hs2b
    · exact hrep
    · exact hl s2 hs2b
  have hl1 := hlstep .titleTok (escape title) (items) (escape_lbFree htitle) hlits
  have hl2 := hlstep .yearRangeTok (escape minYear) (substPieces .titleTok (escape title) (items)) (escape_lbFree hyr) hl1
  have hl3 := hlstep .labelTok (escape label) (substPieces .yearRangeTok (escape minYear) (substPieces .titleTok (escape title) (items))) (escape_lbFree hlabel) hl2
  have hl4 := hlstep .cssTok (escape (cssFor path cfg.css)) (substPieces .labelTok (escape label) (substPieces .yearRangeTok (escape minYear) (substPieces .titleTok (escape title) (items)))) (escape_lbFree hcss) hl3
  have hl5 := hlstep .nameTok (escape cfg.name) (substPieces .cssTok (escape (cssFor path cfg.css)) (substPieces .labelTok (escape label) (substPieces .yearRangeTok (escape minYear) (substPieces .titleTok (escape title) (items))))) (escape_lbFree hname) hl4
  have hl6 := hlstep .authorTok (escape cfg.author) (substPieces .nameTok (escape cfg.name) (substPieces .cssTok (escape (cssFor path cfg.css)) (substPieces .labelTok (escape label) (substPieces .yearRangeTok (escape minYear) (substPieces .titleTok (escape title) (items)))))) (escape_lbFree hauthor) hl5
  have hl7 := hlstep .versionTok (escape pyVERSION) (substPieces .authorTok (escape cfg.author) (substPieces .nameTok (escape cfg.name) (substPieces .cssTok (escape (cssFor path cfg.css)) (substPieces .labelTok (escape label) (substPieces .yearRangeTok (escape minYear) (substPieces .titleTok (escape title) (items))))))) (escape_lbFree (v := pyVERSION) (by decide)) hl6
  have hl8 := hlstep .feedUrlTok (escape cfg.feedUrl) (substPieces .versionTok (escape pyVERSION) (substPieces .authorTok (escape cfg.author) (substPieces .nameTok (escape cfg.name) (substPieces .cssTok (escape (cssFor path cfg.css)) (substPieces .labelTok (escape label) (substPieces .yearRangeTok (escape minYear) (substPieces .titleTok (escape title) (items)))))))) (escape_lbFree hfeed) hl7
  have hl9 := hlstep .bodyTok (bodyHtml) (substPieces .feedUrlTok (escape cfg.feedUrl) (substPieces .versionTok (escape pyVERSION) (substPieces .authorTok (escape cfg.author) (substPieces .nameTok (escape cfg.name) (substPieces .cssTok (escape (cssFor path cfg.css)) (substPieces .labelTok (escape label) (substPieces .yearRangeTok (escape minYear) (substPieces .titleTok (escape title) (items))))))))) (hbodyf) hl8
  have hcb : ∀ (t : TemplatePiece) (rep : String) (l : List TemplatePiece),
      TemplatePiece.bodyTok ≠ t →
      (substPieces t rep l).count TemplatePiece.bodyTok = l.count TemplatePiece.bodyTok :=
    fun t rep l hne => substPieces_count rep hne (fun s3 h => TemplatePiece.noConfusion h) l
  have hs1 : subStr tokTitle (escape title) (renderPieces
      (items)) =
      .ok (renderPieces (substPieces .titleTok (escape title) (items))) := by
    rw [subStr_bsFree _ _ _ (escape_bsFree hbstitle)]
    exact congrArg Except.ok (replaceAll_pass .titleTok (escape title) rfl (items) hlits)
  have hs2 : subStr tokYearRange (escape minYear) (renderPieces
      (substPieces .titleTok (escape title) (items))) =
      .ok (renderPieces (substPieces .yearRangeTok (escape minYear) (substPieces .titleTok (escape title) (items)))) := by
    rw [subStr_bsFree _ _ _ (escape_bsFree hbsyr)]
    exact congrArg Except.ok (replaceAll_pass .yearRangeTok (escape minYear) rfl (substPieces .titleTok (escape title) (items)) hl1)
  have hs3 : subStr tokLabel (escape label) (renderPieces
      (substPieces .yearRangeTok (escape minYear) (substPieces .titleTok (escape title) (items)))) =
      .ok (renderPieces (substPieces .labelTok (escape label) (substPieces .yearRangeTok (escape minYear) (substPieces .titleTok (escape title) (items))))) := by
    rw [subStr_bsFree _ _ _ (escape_bsFree hbslabel)]
    exact congrArg Except.ok (replaceAll_pass .labelTok (escape label) rfl (substPieces .yearRangeTok (escape minYear) (substPieces .titleTok (escape title) (items))) hl2)
  have hs4 : subStr tokCss (escape (cssFor path cfg.css)) (renderPieces
      (substPieces .labelTok (escape label) (substPieces .yearRangeTok (escape minYear) (substPieces .titleTok (escape title) (items))))) =
      .ok (renderPieces (substPieces .cssTok (escape (cssFor path cfg.css)) (substPieces .labelTok (escape label) (substPieces .yearRangeTok (escape minYear) (substPieces .titleTok (escape title) (items)))))) := by
    rw [subStr_bsFree _ _ _ (escape_bsFree hbscss)]
    exact congrArg Except.ok (replaceAll_pass .cssTok (escape (cssFor path cfg.css)) rfl (substPieces .labelTok (escape label) (substPieces .yearRangeTok (escape minYear) (substPieces .titleTok (escape title) (items)))) hl3)
  have hs5 : subStr tokName (escape cfg.name) (renderPieces
      (substPieces .cssTok (escape (cssFor path cfg.css)) (substPieces .labelTok (escape label) (substPieces .yearRangeTok (escape minYear) (substPieces .titleTok (escape title) (items)))))) =
      .ok (renderPieces (substPieces .nameTok (escape cfg.name) (substPieces .cssTok (escape (cssFor path cfg.css)) (substPieces .labelTok (escape label) (substPieces .yearRangeTok (escape minYear) (substPieces .titleTok (escape title) (items))))))) := by
    rw [subStr_bsFree _ _ _ (escape_bsFree hbsname)]
    exact congrArg Except.ok (replaceAll_pass .nameTok (escape cfg.name) rfl (substPieces .cssTok (escape (cssFor path cfg.css)) (substPieces .labelTok (escape label) (substPieces .yearRangeTok (escape minYear) (substPieces .titleTok (escape title) (items))))) hl4)
  have hs6 : subStr tokAuthor (escape cfg.author) (renderPieces
      (substPieces .nameTok (escape cfg.name) (substPieces .cssTok (escape (cssFor path cfg.css)) (substPieces .labelTok (escape label) (substPieces .yearRangeTok (escape minYear) (substPieces .titleTok (escape title) (items))))))) =
      .ok (renderPieces (substPieces .authorTok (escape cfg.author) (substPieces .nameTok (escape cfg.name) (substPieces .cssTok (escape (cssFor path cfg.css)) (substPieces .labelTok (escape label) (substPieces .yearRangeTok (escape minYear) (substPieces .titleTok (escape title) (items)))))))) := by
    rw [subStr_bsFree _ _ _ (escape_bsFree hbsauthor)]
    exact congrArg Except.ok (replaceAll_pass .authorTok (escape cfg.author) rfl (substPieces .nameTok (escape cfg.name) (substPieces .cssTok (escape (cssFor path cfg.css)) (substPieces .labelTok (escape label) (substPieces .yearRangeTok (escape minYear) (substPieces .titleTok (escape title) (items)))))) hl5)
  have hs7 : subStr tokVersion (escape pyVERSION) (renderPieces
      (substPieces .authorTok (escape cfg.author) (substPieces .nameTok (escape cfg.name) (substPieces .cssTok (escape (cssFor path cfg.css)) (substPieces .labelTok (escape label) (substPieces .yearRangeTok (escape minYear) (substPieces .titleTok (escape title) (items)))))))) =
      .ok (renderPieces (substPieces .versionTok (escape pyVERSION) (substPieces .authorTok (escape cfg.author) (substPieces .nameTok (escape cfg.name) (substPieces .cssTok (escape (cssFor path cfg.css)) (substPieces .labelTok (escape label) (substPieces .yearRangeTok (escape minYear) (substPieces .titleTok (escape title) (items))))))))) := by
    rw [subStr_bsFree _ _ _ (escape_bsFree (v := pyVERSION) (by decide))]
    exact congrArg Except.ok (replaceAll_pass .versionTok (escape pyVERSION) rfl (substPieces .authorTok (escape cfg.author) (substPieces .nameTok (escape cfg.name) (substPieces .cssTok (escape (cssFor path cfg.css)) (substPieces .labelTok (escape label) (substPieces .yearRangeTok (escape minYear) (substPieces .titleTok (escape title) (items))))))) hl6)
  have hs8 : subStr tokFeedUrl (escape cfg.feedUrl) (renderPieces
      (substPieces .versionTok (escape pyVERSION) (substPieces .authorTok (escape cfg.author) (substPieces .nameTok (escape cfg.name) (substPieces .cssTok (escape (cssFor path cfg.css)) (substPieces .labelTok (escape label) (substPieces .yearRangeTok (escape minYear) (substPieces .titleTok (escape title) (items))))))))) =
      .ok (renderPieces (substPieces .feedUrlTok (escape cfg.feedUrl) (substPieces .versionTok (escape pyVERSION) (substPieces .authorTok (escape cfg.author) (substPieces .nameTok (escape cfg.name) (substPieces .cssTok (escape (cssFor path cfg.css)) (substPieces .labelTok (escape label) (substPieces .yearRangeTok (escape minYear) (substPieces .titleTok (escape title) (items)))))))))) := by
    rw [subStr_bsFree _ _ _ (escape_bsFree hbsfeed)]
    exact congrArg Except.ok (replaceAll_pass .feedUrlTok (escape cfg.feedUrl) rfl (substPieces .versionTok (escape pyVERSION) (substPieces .authorTok (escape cfg.author) (substPieces .nameTok (escape cfg.name) (substPieces .cssTok (escape (cssFor path cfg.css)) (substPieces .labelTok (escape label) (substPieces .yearRangeTok (escape minYear) (substPieces .titleTok (escape title) (items)))))))) hl7)
  have hs9 : replaceFirst tokBody bodyHtml.data (renderPieces
      (substPieces .feedUrlTok (escape cfg.feedUrl) (substPieces .versionTok (escape pyVERSION) (substPieces .authorTok (escape cfg.author) (substPieces .nameTok (escape cfg.name) (substPieces .cssTok (escape (cssFor path cfg.css)) (substPieces .labelTok (escape label) (substPieces .yearRangeTok (escape minYear) (substPieces .titleTok (escape title) (items)))))))))) =
      renderPieces (substPieces .bodyTok (bodyHtml) (substPieces .feedUrlTok (escape cfg.feedUrl) (substPieces .versionTok (escape pyVERSION) (substPieces .authorTok (escape cfg.author) (substPieces .nameTok (escape cfg.name) (substPieces .cssTok (escape (cssFor path cfg.css)) (substPieces .labelTok (escape label) (substPieces .yearRangeTok (escape minYear) (substPieces .titleTok (escape title) (items)))))))))) :=
    replaceFirst_pass .bodyTok bodyHtml rfl (substPieces .feedUrlTok (escape cfg.feedUrl) (substPieces .versionTok (escape pyVERSION) (substPieces .authorTok (escape cfg.author) (substPieces .nameTok (escape cfg.name) (substPieces .cssTok (escape (cssFor path cfg.css)) (substPieces .labelTok (escape label) (substPieces .yearRangeTok (escape minYear) (substPieces .titleTok (escape title) (items))))))))) hl8 (by
      rw [hcb .feedUrlTok _ _ (by decide), hcb .versionTok _ _ (by decide),
        hcb .authorTok _ _ (by decide), hcb .nameTok _ _ (by decide),
        hcb .cssTok _ _ (by decide), hcb .labelTok _ _ (by decide),
        hcb .yearRangeTok _ _ (by decide), hcb .titleTok _ _ (by decide)]
      exact hbody1)
  have hs10 : subStr tokArchive (archiveHtml) (renderPieces
      (substPieces .bodyTok (bodyHtml) (substPieces .feedUrlTok (escape cfg.feedUrl) (substPieces .versionTok (escape pyVERSION) (substPieces .authorTok (escape cfg.author) (substPieces .nameTok (escape cfg.name) (substPieces .cssTok (escape (cssFor path cfg.css)) (substPieces .labelTok (escape label) (substPieces .yearRangeTok (escape minYear) (substPieces .titleTok (escape title) (items))))))))))) =
      .ok (renderPieces (substPieces .archiveTok (archiveHtml) (substPieces .bodyTok (bodyHtml) (substPieces .feedUrlTok (escape cfg.feedUrl) (substPieces .versionTok (escape pyVERSION) (substPieces .authorTok (escape cfg.author) (substPieces .nameTok (escape cfg.name) (substPieces .cssTok (escape (cssFor path cfg.css)) (substPieces .labelTok (escape label) (substPieces .yearRangeTok (escape minYear) (substPieces .titleTok (escape title) (items)))))))))))) := by
    rw [subStr_bsFree _ _ _ (hbsarch)]
    exact congrArg Except.ok (replaceAll_pass .archiveTok (archiveHtml) rfl (substPieces .bodyTok (bodyHtml) (substPieces .feedUrlTok (escape cfg.feedUrl) (substPieces .versionTok (escape pyVERSION) (substPieces .authorTok (escape cfg.author) (substPieces .nameTok (escape cfg.name) (substPieces .cssTok (escape (cssFor path cfg.css)) (substPieces .labelTok (escape label) (substPieces .yearRangeTok (escape minYear) (substPieces .titleTok (escape title) (items)))))))))) hl9)
  have hph : createPageHtml cfg path title bodyHtml archiveHtml label minYear =
      .ok (String.mk (renderPieces (substPieces .archiveTok (archiveHtml) (substPieces .bodyTok (bodyHtml) (substPieces .feedUrlTok (escape cfg.feedUrl) (substPieces .versionTok (escape pyVERSION) (substPieces .authorTok (escape cfg.author) (substPieces .nameTok (escape cfg.name) (substPieces .cssTok (escape (cssFor path cfg.css)) (substPieces .labelTok (escape label) (substPieces .yearRangeTok (escape minYear) (substPieces .titleTok (escape title) (items))))))))))))) := by
    simp only [createPageHtml, htmpl, subStrPasses, hs1, hs2, hs3, hs4, hs5, hs6, hs7, hs8]
    rw [hs9]
    simp only [hs10]
  simp only [createPage, hyro, hph]
  rw [substPieces_chain cfg path title bodyHtml archiveHtml label minYear items]
  rfl

/-- Witness for C7 at a concrete configuration whose template is a literal
heading, a title slot, one body slot and an archive slot. -/
theorem createPage_substitution_witness :
    createPage
      ⟨"N", "A", "s.css", "https://e.org/", "https://e.org/f.json", "fmt", "lbl", 5,
       "<h>[% title %]</h>[% body %]\n[% archive %]\n"⟩
      "2020/index.html" "T" "B<bb>" "A[" "L" "2020" "2020" =
      .ok ("2020/index.html", String.mk (substitutedTemplate
        ⟨"N", "A", "s.css", "https://e.org/", "https://e.org/f.json", "fmt", "lbl", 5,
         "<h>[% title %]</h>[% body %]\n[% archive %]\n"⟩
        "2020/index.html" "T" "B<bb>" "A[" "L" "2020"
        [.lit "<h>", .titleTok, .lit "</h>", .bodyTok, .archiveTok])) :=
  createPage_substitution _ "2020/index.html" "T" "B<bb>" "A[" "L" "2020" "2020"
    [.lit "<h>", .titleTok, .lit "</h>", .bodyTok, .archiveTok]
    rfl
    (by
      intro s2 hs2
      simp at hs2
      rcases hs2 with rfl | rfl <;> decide)
    (by decide) (by decide) (by decide) (by decide) (by decide) (by decide)
    (by decide) (by decide) (by decide)
    (by decide) (by decide) (by decide) (by decide) (by decide) (by decide)
    (by decide) (by decide) rfl

/-- **C7 counterexample**: `re.sub` processes backslash escapes in its string
replacements, so a value containing a backslash is not substituted as its
HTML-escaped self: the title `\\frac` (whose HTML escape is itself) is
inserted as a form feed followed by `rac`, and a title with a meaningless
letter escape (`a\\q`) aborts the whole page with `re.error` before
anything is written.  The body slot's lambda replacement, by contrast, stays
verbatim even with a backslash. -/
theorem createPage_backslash_counterexample :
    createPage
      ⟨"N", "A", "c.css", "https://e.org/", "https://e.org/f.json", "fmt", "lbl", 5,
       "[% title %]"⟩ "p" "\\frac" "B" "A" "L" "2020" "2020" =
      .ok ("p", "\x0crac") ∧
    escape "\\frac" = "\\frac" ∧ ("\x0crac" : String) ≠ "\\frac" ∧
    createPage
      ⟨"N", "A", "c.css", "https://e.org/", "https://e.org/f.json", "fmt", "lbl", 5,
       "[% title %]"⟩ "p" "a\\q" "B" "A" "L" "2020" "2020" = .error .reError ∧
    createPage
      ⟨"N", "A", "c.css", "https://e.org/", "https://e.org/f.json", "fmt", "lbl", 5,
       "[% body %]\n"⟩ "p" "T" "\\frac" "A" "L" "2020" "2020" =
      .ok ("p", "\\frac") :=
  ⟨rfl, rfl, by decide, rfl, rfl⟩

end Tumblelog
